import Mathlib

/-!
# finn-en-dato: the scheduling-poll store

A shallow embedding of `backend/internal/database/operations.go`,
`backend/internal/database/schema.go`, `backend/internal/models/event.go` and
`backend/internal/handlers/events.go`.

Modelling conventions.

* The SQLite database is a `Store`: one list of rows per table, in rowid
  (insertion) order, plus the `sqlite_sequence` counter of every
  `AUTOINCREMENT` table.
* Go `int` / SQL `INTEGER` values are `Int`; the 64-bit bound is not modelled
  (an id would have to exceed `2^63 - 1`).
* `time.Time` is `Time`.  A `TimeCodec` carries what the driver does with the
  `DATE`, `TIME` and `TIMESTAMP` columns: the text written for a `time.Time`,
  the text that `Scan` yields for a `date`, `start_time` or `end_time` column,
  and the two `time.Parse` layouts that `GetEvent` and `getRespondents` try on
  the `created_at` read back.
* A table row holds the text that the `INSERT` was given.  The columns `date`,
  `start_time`, `end_time` and `created_at` have `NUMERIC` affinity: SQLite
  stores text that is a well-formed number as that number.  `ORDER BY` on
  these columns is modelled on the stored values (`storedLE`), numbers at
  their exact decimal value (the rounding of 64-bit floats is not modelled);
  what `Scan` returns for them is the codec's.
* `uuid.New()` and `time.Now()` are arguments of the operations that call them.
* The schema declares foreign keys, but the connection is opened without the
  `foreign_keys` pragma, so SQLite does not enforce them; `PRIMARY KEY` and
  `UNIQUE` are enforced.
* `ORDER BY` is a stable sort of the selected rows; SQLite leaves the order of
  rows that compare equal open, and no theorem depends on it.
* The `SELECT` on `responses` has no `ORDER BY`; SQLite answers it through the
  index of `UNIQUE(respondent_id, event_date_id)`, in ascending
  `event_date_id`, and the theorems hold for any order of these rows.
* A transaction works on a view of the store; `Commit` publishes the view and
  the deferred `Rollback` of an uncommitted transaction restores the snapshot
  taken by `Begin`.
* Errors raised by the storage engine for reasons outside the schema (I/O
  failure, lock contention) are not modelled.
-/

namespace FinnEnDato

/-! ## models/event.go -/

abbrev Time := Nat

/-- EventDate is one date/time option of an event. -/
structure EventDate where
  ID : Int
  EventID : String
  Date : String
  StartTime : String
  EndTime : String
deriving DecidableEq, Repr

/-- Response is one respondent's availability for one event date. -/
structure Response where
  ID : Int
  RespondentID : Int
  EventDateID : Int
  Available : Bool
deriving DecidableEq, Repr

/-- Respondent with the responses loaded by `getRespondents`. -/
structure Respondent where
  ID : Int
  EventID : String
  Name : String
  CreatedAt : Time
  Responses : List Response
deriving DecidableEq, Repr

/-- Event as returned by `CreateEvent` and `GetEvent` (the `Respondents` field
of the Go struct is never assigned by any operation and is left out). -/
structure Event where
  ID : String
  Name : String
  CreatedAt : Time
  FinalizedDateID : Option Int
  Dates : List EventDate
deriving DecidableEq, Repr

structure CreateDateRequest where
  Date : String
  StartTime : String
  EndTime : String
deriving DecidableEq, Repr

structure CreateEventRequest where
  Name : String
  Dates : List CreateDateRequest
deriving DecidableEq, Repr

structure ResponseRequest where
  EventDateID : Int
  Available : Bool
deriving DecidableEq, Repr

structure SubmitResponseRequest where
  Name : String
  Responses : List ResponseRequest
deriving DecidableEq, Repr

structure AvailabilitySummary where
  EventDateID : Int
  AvailableCount : Nat
  UnavailableCount : Nat
  AvailableNames : List String
deriving DecidableEq, Repr

/-- Go `map[int]AvailabilitySummary`, observed through lookup by key. -/
abbrev SummaryMap := Int → Option AvailabilitySummary

/-- The empty map of `make(map[int]models.AvailabilitySummary)`. -/
def SummaryMap.empty : SummaryMap := fun _ => none

/-- Map assignment `m[k] = v`. -/
def SummaryMap.set (m : SummaryMap) (k : Int) (v : AvailabilitySummary) : SummaryMap :=
  fun k' => if k' = k then some v else m k'

structure EventResults where
  Event : Event
  Respondents : List Respondent
  Summary : SummaryMap

/-! ## database/schema.go -/

/-- Row of table `events`. -/
structure EventRow where
  id : String
  name : String
  created_at : String
  finalized_date_id : Option Int
deriving DecidableEq, Repr

/-- Row of table `event_dates`. -/
structure EventDateRow where
  id : Int
  event_id : String
  date : String
  start_time : String
  end_time : String
deriving DecidableEq, Repr

/-- Row of table `respondents`. -/
structure RespondentRow where
  id : Int
  event_id : String
  name : String
  created_at : String
deriving DecidableEq, Repr

/-- Row of table `responses`. -/
structure ResponseRow where
  id : Int
  respondent_id : Int
  event_date_id : Int
  available : Bool
deriving DecidableEq, Repr

/-- The database: the four tables of `CreateTables` and the `sqlite_sequence`
entry of each `AUTOINCREMENT` table. -/
structure Store where
  events : List EventRow
  event_dates : List EventDateRow
  respondents : List RespondentRow
  responses : List ResponseRow
  seq_event_dates : Int
  seq_respondents : Int
  seq_responses : Int
deriving DecidableEq, Repr

/-- The database right after `CreateTables` on a new file. -/
def Store.empty : Store := ⟨[], [], [], [], 0, 0, 0⟩

/-- `INTEGER PRIMARY KEY AUTOINCREMENT`: one more than the largest rowid the
table ever held, that is the larger of the `sqlite_sequence` entry and of the
ids present. -/
def nextID (seq : Int) (ids : List Int) : Int :=
  ids.foldl max seq + 1

/-! ## errors -/

/-- Go `error` values that the operations return. -/
inductive Err where
  | errNoRows
  | constraint (what : String)
  | parse (text : String)
  | msg (text : String)
  | wrap (text : String) (inner : Err)
deriving DecidableEq, Repr

/-! ## timestamps -/

/-- What the driver and `time.Parse` do with the `DATE` and `TIMESTAMP` columns:
`format` is the text stored for a `time.Time` argument, `scanDate` the text that
`Scan` hands to a Go string for a `date` column that was written as the given
text, `scanTime` the same for a `start_time` or `end_time` column, and
`rfc3339Nano` and `spaced` are the two `time.Parse` layouts applied to what
`Scan` hands over for a stored `created_at`. -/
structure TimeCodec where
  format : Time → String
  scanDate : String → String
  scanTime : String → String
  rfc3339Nano : String → Option Time
  spaced : String → Option Time

/-- The two-layout parse of `created_at`: `time.RFC3339Nano` first, then
`"2006-01-02 15:04:05.999999999Z07:00"`. -/
def parseCreatedAt (tc : TimeCodec) (text : String) : Option Time :=
  match tc.rfc3339Nano text with
  | some t => some t
  | none => tc.spaced text

/-! ## SQL statements of database/operations.go -/

/-- Comparison of two texts under SQLite's `BINARY` collation: character by
character, a proper prefix first. -/
def charsLE : List Char → List Char → Bool
  | [], _ => true
  | _ :: _, [] => false
  | a :: as, b :: bs =>
    if a.toNat < b.toNat then true
    else if b.toNat < a.toNat then false
    else charsLE as bs

/-- Text `a` sorts before or with text `b`. -/
def textLE (a b : String) : Bool := charsLE a.data b.data

/-- The function `sqlite3Isspace`: space, tab, line feed, vertical tab, form feed
and carriage return. -/
def isSqlSpace (c : Char) : Bool :=
  c.toNat = 32 || (9 ≤ c.toNat && c.toNat ≤ 13)

/-- The text without its leading SQLite spaces. -/
def dropSpaces : List Char → List Char
  | [] => []
  | c :: cs => if isSqlSpace c then dropSpaces cs else c :: cs

/-- A leading `-` or `+`: whether the sign is negative, and the rest. -/
def takeSign : List Char → Bool × List Char
  | [] => (false, [])
  | c :: cs =>
    if c.toNat = 45 then (true, cs)
    else if c.toNat = 43 then (false, cs)
    else (false, c :: cs)

/-- The leading decimal digits appended to the number `acc`, the count of them
added to `n`, and the rest. -/
def takeDigits : List Char → Nat → Nat → Nat × Nat × List Char
  | [], acc, n => (acc, n, [])
  | c :: cs, acc, n =>
    if 48 ≤ c.toNat && c.toNat ≤ 57 then takeDigits cs (acc * 10 + (c.toNat - 48)) (n + 1)
    else (acc, n, c :: cs)

/-- The number that a `NUMERIC` column stores for a text, as `(m, k)` standing
for `m / 10 ^ k`, or `none` when the text is kept as text.  A text is a number
when, between optional spaces, it is an optional sign, digits with an optional
decimal point and at least one digit, and an optional exponent with at least
one digit (the grammar of `sqlite3AtoF`). -/
def decimalValue (text : List Char) : Option (Int × Nat) :=
  let (negative, s1) := takeSign (dropSpaces text)
  let (whole, n1, s2) := takeDigits s1 0 0
  let (mantissa, n2, s3) :=
    match s2 with
    | [] => (whole, 0, [])
    | c :: cs => if c.toNat = 46 then takeDigits cs whole 0 else (whole, 0, c :: cs)
  let exponent : Option (Int × List Char) :=
    match s3 with
    | [] => some (0, [])
    | c :: cs =>
      if c.toNat = 101 || c.toNat = 69 then
        let (eNegative, s4) := takeSign cs
        let (e, ne, s5) := takeDigits s4 0 0
        if ne = 0 then none else some (if eNegative then -(e : Int) else (e : Int), s5)
      else some (0, c :: cs)
  match exponent with
  | none => none
  | some (e, rest) =>
    if n1 + n2 = 0 then none
    else if (dropSpaces rest).length ≠ 0 then none
    else
      let m : Int := if negative then -(mantissa : Int) else (mantissa : Int)
      let shift : Int := e - (n2 : Int)
      if 0 ≤ shift then some (m * 10 ^ shift.toNat, 0) else some (m, (-shift).toNat)

/-- Comparison of the values that a `NUMERIC` column stores for two texts:
numbers by value, every number before every text, texts under `BINARY`
collation. -/
def storedLE (a b : String) : Bool :=
  match decimalValue a.data, decimalValue b.data with
  | some x, some y => decide (x.1 * 10 ^ y.2 ≤ y.1 * 10 ^ x.2)
  | some _, none => true
  | none, some _ => false
  | none, none => textLE a b

/-- The order of `ORDER BY date, start_time` on the stored values: by date,
and by start time where the dates compare equal. -/
def dateOrder (a b : EventDateRow) : Prop :=
  storedLE b.date a.date = false ∨
    (storedLE a.date b.date = true ∧ storedLE a.start_time b.start_time = true)

instance dateOrder.decidable : DecidableRel dateOrder := fun a b => by
  unfold dateOrder; infer_instance

/-- The order of `ORDER BY created_at` on the stored values. -/
def createdOrder (a b : RespondentRow) : Prop :=
  storedLE a.created_at b.created_at = true

instance createdOrder.decidable : DecidableRel createdOrder := fun a b => by
  unfold createdOrder; infer_instance

/-- `INSERT INTO events (id, name, created_at) VALUES (?, ?, ?)`; `id` is the
primary key of the table. -/
def insertEvent (v : Store) (id name created_at : String) : Except Err Store :=
  if v.events.any (fun r => r.id == id) then
    .error (.constraint "UNIQUE constraint failed: events.id")
  else
    .ok { v with events := v.events ++ [⟨id, name, created_at, none⟩] }

/-- `INSERT INTO event_dates (event_id, date, start_time, end_time)
VALUES (?, ?, ?, ?)` followed by `LastInsertId`. -/
def insertEventDate (v : Store) (event_id date start_time end_time : String) :
    Except Err (Store × Int) :=
  let id := nextID v.seq_event_dates (v.event_dates.map (·.id))
  .ok ({ v with event_dates := v.event_dates ++ [⟨id, event_id, date, start_time, end_time⟩],
                seq_event_dates := id }, id)

/-- `SELECT id, name, created_at, finalized_date_id FROM events WHERE id = ?`
through `QueryRow`: the first matching row, if any. -/
def selectEvent (v : Store) (id : String) : Option EventRow :=
  v.events.find? (fun r => r.id == id)

/-- `SELECT id, event_id, date, start_time, end_time FROM event_dates
WHERE event_id = ? ORDER BY date, start_time`. -/
def selectEventDates (v : Store) (event_id : String) : List EventDateRow :=
  (v.event_dates.filter (fun r => r.event_id == event_id)).insertionSort dateOrder

/-- `SELECT id FROM respondents WHERE event_id = ? AND name = ?` through
`QueryRow`: the first matching row, `none` standing for `sql.ErrNoRows`. -/
def selectRespondentID (v : Store) (event_id name : String) : Option Int :=
  (v.respondents.find? (fun r => r.event_id == event_id && r.name == name)).map (·.id)

/-- `INSERT INTO respondents (event_id, name, created_at) VALUES (?, ?, ?)`
followed by `LastInsertId`. -/
def insertRespondent (v : Store) (event_id name created_at : String) :
    Except Err (Store × Int) :=
  let id := nextID v.seq_respondents (v.respondents.map (·.id))
  .ok ({ v with respondents := v.respondents ++ [⟨id, event_id, name, created_at⟩],
                seq_respondents := id }, id)

/-- `DELETE FROM responses WHERE respondent_id = ?`. -/
def deleteResponses (v : Store) (respondent_id : Int) : Store :=
  { v with responses := v.responses.filter (fun r => r.respondent_id != respondent_id) }

/-- `INSERT INTO responses (respondent_id, event_date_id, available)
VALUES (?, ?, ?)` under `UNIQUE(respondent_id, event_date_id)`. -/
def insertResponse (v : Store) (respondent_id event_date_id : Int) (available : Bool) :
    Except Err Store :=
  if v.responses.any
      (fun r => r.respondent_id == respondent_id && r.event_date_id == event_date_id) then
    .error (.constraint
      "UNIQUE constraint failed: responses.respondent_id, responses.event_date_id")
  else
    let id := nextID v.seq_responses (v.responses.map (·.id))
    .ok { v with responses := v.responses ++ [⟨id, respondent_id, event_date_id, available⟩],
                 seq_responses := id }

/-- `SELECT id, event_id, name, created_at FROM respondents WHERE event_id = ?
ORDER BY created_at`. -/
def selectRespondents (v : Store) (event_id : String) : List RespondentRow :=
  (v.respondents.filter (fun r => r.event_id == event_id)).insertionSort createdOrder

/-- The order in which the index of `UNIQUE(respondent_id, event_date_id)` lists
the rows of one respondent. -/
def indexOrder (a b : ResponseRow) : Prop :=
  a.event_date_id ≤ b.event_date_id

instance indexOrder.decidable : DecidableRel indexOrder := fun a b => by
  unfold indexOrder; infer_instance

/-- `SELECT id, respondent_id, event_date_id, available FROM responses
WHERE respondent_id = ?`, answered through the index of
`UNIQUE(respondent_id, event_date_id)`. -/
def selectResponses (v : Store) (respondent_id : Int) : List Response :=
  ((v.responses.filter (fun r => r.respondent_id == respondent_id)).insertionSort
    indexOrder).map (fun r => ⟨r.id, r.respondent_id, r.event_date_id, r.available⟩)

/-- `SELECT COUNT(*) FROM event_dates WHERE id = ? AND event_id = ?`. -/
def countEventDate (v : Store) (id : Int) (event_id : String) : Nat :=
  (v.event_dates.filter (fun r => r.id == id && r.event_id == event_id)).length

/-- `UPDATE events SET finalized_date_id = ? WHERE id = ?`. -/
def updateFinalized (v : Store) (finalized : Int) (id : String) : Store :=
  { v with
    events := v.events.map (fun r =>
      if r.id == id then { r with finalized_date_id := some finalized } else r) }

/-! ## transactions -/

/-- An open transaction: the snapshot taken by `db.Begin()` and the view that
the statements of the transaction read and write. -/
structure Tx where
  snapshot : Store
  view : Store

/-- `db.Begin()`. -/
def Begin (db : Store) : Tx := ⟨db, db⟩

/-- `tx.Commit()`: the view becomes the database. -/
def Tx.Commit (tx : Tx) : Store := tx.view

/-- The deferred `tx.Rollback()` of a transaction that was not committed. -/
def Tx.Rollback (tx : Tx) : Store := tx.snapshot

/-! ## database/operations.go -/

/-- The `for _, dateReq := range req.Dates` loop of `CreateEvent`, with the
slice `dates` built so far. -/
def insertEventDates (eventID : String) :
    List CreateDateRequest → Store → List EventDate → Except Err (Store × List EventDate)
  | [], v, dates => .ok (v, dates)
  | dateReq :: rest, v, dates =>
    match insertEventDate v eventID dateReq.Date dateReq.StartTime dateReq.EndTime with
    | .error e => .error (.wrap "failed to insert event date" e)
    | .ok (v', dateID) =>
      insertEventDates eventID rest v'
        (dates ++ [⟨dateID, eventID, dateReq.Date, dateReq.StartTime, dateReq.EndTime⟩])

/-- CreateEvent creates a new event with its associated dates.  `eventID` is
the value of `uuid.New().String()`, `now` and `returnedAt` the two readings of
`time.Now()`. -/
def CreateEvent (tc : TimeCodec) (db : Store) (req : CreateEventRequest)
    (eventID : String) (now returnedAt : Time) : Except Err Event × Store :=
  let tx := Begin db
  match insertEvent tx.view eventID req.Name (tc.format now) with
  | .error e => (.error (.wrap "failed to insert event" e), tx.Rollback)
  | .ok v =>
    match insertEventDates eventID req.Dates v [] with
    | .error e => (.error e, tx.Rollback)
    | .ok (v', dates) =>
      (.ok ⟨eventID, req.Name, returnedAt, none, dates⟩, Tx.Commit { tx with view := v' })

/-- The `rows.Scan` of one `event_dates` row in `GetEvent`. -/
def scanEventDate (tc : TimeCodec) (d : EventDateRow) : EventDate :=
  ⟨d.id, d.event_id, tc.scanDate d.date, tc.scanTime d.start_time, tc.scanTime d.end_time⟩

/-- GetEvent retrieves an event by ID with its dates. -/
def GetEvent (tc : TimeCodec) (db : Store) (eventID : String) : Except Err Event :=
  match selectEvent db eventID with
  | none => .error .errNoRows
  | some row =>
    match parseCreatedAt tc row.created_at with
    | none => .error (.wrap "failed to parse created_at" (.parse row.created_at))
    | some createdAt =>
      .ok ⟨row.id, row.name, createdAt, row.finalized_date_id,
        (selectEventDates db eventID).map (scanEventDate tc)⟩

/-- The `for _, response := range req.Responses` loop of `SubmitResponse`. -/
def insertResponses (respondentID : Int) : List ResponseRequest → Store → Except Err Store
  | [], v => .ok v
  | response :: rest, v =>
    match insertResponse v respondentID response.EventDateID response.Available with
    | .error e => .error (.wrap "failed to insert response" e)
    | .ok v' => insertResponses respondentID rest v'

/-- The respondent lookup of `SubmitResponse`: the id of the existing
respondent, or of the row inserted when the lookup gives `sql.ErrNoRows`. -/
def resolveRespondent (tc : TimeCodec) (v : Store) (eventID name : String) (now : Time) :
    Except Err (Store × Int) :=
  match selectRespondentID v eventID name with
  | some respondentID => .ok (v, respondentID)
  | none =>
    match insertRespondent v eventID name (tc.format now) with
    | .error e => .error (.wrap "failed to insert respondent" e)
    | .ok r => .ok r

/-- SubmitResponse submits a respondent's availability responses; `now` is the
reading of `time.Now()` used when a respondent row is inserted.  The result is
the returned `error` (`none` for `nil`) and the database after the call. -/
def SubmitResponse (tc : TimeCodec) (db : Store) (eventID : String)
    (req : SubmitResponseRequest) (now : Time) : Option Err × Store :=
  let tx := Begin db
  match resolveRespondent tc tx.view eventID req.Name now with
  | .error e => (some e, tx.Rollback)
  | .ok (v, respondentID) =>
    match insertResponses respondentID req.Responses (deleteResponses v respondentID) with
    | .error e => (some e, tx.Rollback)
    | .ok v' => (none, Tx.Commit { tx with view := v' })

/-- The `for rows.Next()` loop of `getRespondents` over the selected rows. -/
def loadRespondents (tc : TimeCodec) (db : Store) : List RespondentRow → Except Err (List Respondent)
  | [] => .ok []
  | row :: rest =>
    match parseCreatedAt tc row.created_at with
    | none => .error (.wrap "failed to parse respondent created_at" (.parse row.created_at))
    | some createdAt =>
      match loadRespondents tc db rest with
      | .error e => .error e
      | .ok respondents =>
        .ok (⟨row.id, row.event_id, row.name, createdAt, selectResponses db row.id⟩ :: respondents)

/-- The function getRespondents gets all respondents for an event with their
responses. -/
def getRespondents (tc : TimeCodec) (db : Store) (eventID : String) :
    Except Err (List Respondent) :=
  loadRespondents tc db (selectRespondents db eventID)

/-- Running totals of one date in `GetEventResults`: `availableCount`,
`unavailableCount` and `availableNames`. -/
structure Tally where
  availableCount : Nat
  unavailableCount : Nat
  availableNames : List String
deriving DecidableEq, Repr

/-- The `for _, response := range respondent.Responses` loop: the first
response for the date is counted, then `break`. -/
def tallyResponses (dateID : Int) (name : String) : List Response → Tally → Tally
  | [], t => t
  | response :: rest, t =>
    if response.EventDateID = dateID then
      if response.Available then
        { t with availableCount := t.availableCount + 1,
                 availableNames := t.availableNames ++ [name] }
      else
        { t with unavailableCount := t.unavailableCount + 1 }
    else tallyResponses dateID name rest t

/-- The `for _, respondent := range respondents` loop. -/
def tallyRespondents (dateID : Int) (respondents : List Respondent) : Tally :=
  respondents.foldl (fun t respondent => tallyResponses dateID respondent.Name respondent.Responses t)
    ⟨0, 0, []⟩

/-- The `for _, date := range event.Dates` loop filling `summary`. -/
def summarize (dates : List EventDate) (respondents : List Respondent) : SummaryMap :=
  dates.foldl
    (fun summary date =>
      let t := tallyRespondents date.ID respondents
      summary.set date.ID ⟨date.ID, t.availableCount, t.unavailableCount, t.availableNames⟩)
    SummaryMap.empty

/-- GetEventResults gets aggregated results for an event. -/
def GetEventResults (tc : TimeCodec) (db : Store) (eventID : String) : Except Err EventResults :=
  match GetEvent tc db eventID with
  | .error e => .error e
  | .ok event =>
    match getRespondents tc db eventID with
    | .error e => .error e
    | .ok respondents => .ok ⟨event, respondents, summarize event.Dates respondents⟩

/-- FinalizeEvent sets the finalized date for an event.  The result is the
returned `error` (`none` for `nil`) and the database after the call. -/
def FinalizeEvent (db : Store) (eventID : String) (eventDateID : Int) : Option Err × Store :=
  if countEventDate db eventDateID eventID = 0 then
    (some (.msg "event date does not belong to this event"), db)
  else
    (none, updateFinalized db eventDateID eventID)

/-! ## handlers/events.go -/

/-- What a handler writes after the status line. -/
inductive Body where
  | text (message : String)
  | failure (message : String) (err : Err)
  | message (text : String)
  | event (e : Event)
  | results (r : EventResults)

/-- Status code and body written to the `http.ResponseWriter`. -/
structure HTTPResponse where
  status : Nat
  body : Body

/-- The anonymous request struct of the `finalizeEvent` handler. -/
structure FinalizeRequest where
  EventDateID : Int
deriving DecidableEq, Repr

namespace EventHandler

/-- Handler of `POST /api/events`.  `body` is the outcome of decoding the
request JSON, `none` when `Decode` fails. -/
def createEvent (tc : TimeCodec) (db : Store) (body : Option CreateEventRequest)
    (eventID : String) (now returnedAt : Time) : HTTPResponse × Store :=
  match body with
  | none => (⟨400, .text "Invalid JSON"⟩, db)
  | some req =>
    if req.Name = "" then (⟨400, .text "Event name is required"⟩, db)
    else if req.Dates.length = 0 then (⟨400, .text "At least one date is required"⟩, db)
    else
      match CreateEvent tc db req eventID now returnedAt with
      | (.error err, db') => (⟨500, .failure "Failed to create event: " err⟩, db')
      | (.ok event, db') => (⟨201, .event event⟩, db')

/-- Handler of `GET /api/events/{id}`. -/
def getEvent (tc : TimeCodec) (db : Store) (eventID : String) : HTTPResponse :=
  match GetEvent tc db eventID with
  | .error err =>
    if err = .errNoRows then ⟨404, .text "Event not found"⟩
    else ⟨500, .failure "Failed to get event: " err⟩
  | .ok event => ⟨200, .event event⟩

/-- Handler of `POST /api/events/{id}/respond`. -/
def submitResponse (tc : TimeCodec) (db : Store) (eventID : String)
    (body : Option SubmitResponseRequest) (now : Time) : HTTPResponse × Store :=
  match body with
  | none => (⟨400, .text "Invalid JSON"⟩, db)
  | some req =>
    if req.Name = "" then (⟨400, .text "Name is required"⟩, db)
    else if req.Responses.length = 0 then
      (⟨400, .text "At least one response is required"⟩, db)
    else
      match SubmitResponse tc db eventID req now with
      | (some err, db') => (⟨500, .failure "Failed to submit response: " err⟩, db')
      | (none, db') => (⟨201, .message "Response submitted successfully"⟩, db')

/-- Handler of `GET /api/events/{id}/results`. -/
def getEventResults (tc : TimeCodec) (db : Store) (eventID : String) : HTTPResponse :=
  match GetEventResults tc db eventID with
  | .error err =>
    if err = .errNoRows then ⟨404, .text "Event not found"⟩
    else ⟨500, .failure "Failed to get event results: " err⟩
  | .ok results => ⟨200, .results results⟩

/-- Handler of `PATCH /api/events/{id}/finalize`. -/
def finalizeEvent (db : Store) (eventID : String) (body : Option FinalizeRequest) :
    HTTPResponse × Store :=
  match body with
  | none => (⟨400, .text "Invalid JSON"⟩, db)
  | some req =>
    if req.EventDateID = 0 then (⟨400, .text "Event date ID is required"⟩, db)
    else
      match FinalizeEvent db eventID req.EventDateID with
      | (some err, db') => (⟨500, .failure "Failed to finalize event: " err⟩, db')
      | (none, db') => (⟨200, .message "Event finalized successfully"⟩, db')

end EventHandler

/-! ## states of the running service -/

/-- The databases that the three writing operations can produce from the
empty database, whatever their arguments and whether they succeed or fail. -/
inductive Reachable (tc : TimeCodec) : Store → Prop where
  | empty : Reachable tc Store.empty
  | createEvent {db : Store} (req : CreateEventRequest) (eventID : String)
      (now returnedAt : Time) :
      Reachable tc db → Reachable tc (CreateEvent tc db req eventID now returnedAt).2
  | submitResponse {db : Store} (eventID : String) (req : SubmitResponseRequest) (now : Time) :
      Reachable tc db → Reachable tc (SubmitResponse tc db eventID req now).2
  | finalizeEvent {db : Store} (eventID : String) (eventDateID : Int) :
      Reachable tc db → Reachable tc (FinalizeEvent db eventID eventDateID).2

/-! ## vocabulary of the properties -/

/-- Every stored `created_at` of the event `eventID` and of its respondents is
accepted by one of the two layouts. -/
def Readable (tc : TimeCodec) (db : Store) (eventID : String) : Prop :=
  (∀ e ∈ db.events, e.id = eventID → (parseCreatedAt tc e.created_at).isSome = true) ∧
  (∀ p ∈ db.respondents, p.event_id = eventID → (parseCreatedAt tc p.created_at).isSome = true)

/-- The table `responses` holds at most one row per respondent and date
option, as `UNIQUE(respondent_id, event_date_id)` demands. -/
def OneResponsePerDate (db : Store) : Prop :=
  db.responses.Pairwise
    (fun a b => ¬(a.respondent_id = b.respondent_id ∧ a.event_date_id = b.event_date_id))

/-- Whether the table `responses` holds a row of the respondent for the date
option with the given availability. -/
def hasResponse (db : Store) (respondentID dateID : Int) (available : Bool) : Bool :=
  db.responses.any (fun r =>
    r.respondent_id == respondentID && r.event_date_id == dateID && r.available == available)

/-- The respondents of event `eventID`, in fetch order, that have a response
row for date option `dateID` with the given availability. -/
def respondentsAnswering (db : Store) (eventID : String) (dateID : Int) (available : Bool) :
    List RespondentRow :=
  (selectRespondents db eventID).filter (fun p => hasResponse db p.id dateID available)

/-- The respondent that `getRespondents` builds from a selected row. -/
def toRespondent (tc : TimeCodec) (db : Store) (row : RespondentRow) : Respondent :=
  ⟨row.id, row.event_id, row.name, (parseCreatedAt tc row.created_at).getD 0,
    selectResponses db row.id⟩

/-- The availability of the first response for `dateID` in a response list,
the one at which the counting loop breaks. -/
def firstAnswer (dateID : Int) (responses : List Response) : Option Bool :=
  (responses.find? (fun r => r.EventDateID == dateID)).map (·.Available)

/-- What a response row says, apart from its own id. -/
def ResponseRow.triple (r : ResponseRow) : Int × Int × Bool :=
  (r.respondent_id, r.event_date_id, r.available)

/-- A response list that names no date option twice. -/
def DistinctDates (responses : List ResponseRequest) : Prop :=
  responses.Pairwise (fun a b => a.EventDateID ≠ b.EventDateID)

/-- The row of `event_dates` behind a returned date option. -/
def EventDate.toRow (d : EventDate) : EventDateRow :=
  ⟨d.ID, d.EventID, d.Date, d.StartTime, d.EndTime⟩

/-- Every date option row refers to an event row. -/
def DatesHaveEvents (db : Store) : Prop :=
  ∀ d ∈ db.event_dates, ∃ e ∈ db.events, e.id = d.event_id

/-- Every finalized reference of an event points to a date option of that same
event. -/
def FinalizedOwned (db : Store) : Prop :=
  ∀ e ∈ db.events, ∀ d, e.finalized_date_id = some d →
    ∃ row ∈ db.event_dates, row.id = d ∧ row.event_id = e.id

/-- At most one respondent row per event and name. -/
def RespondentsUnique (db : Store) : Prop :=
  ∀ eventID name,
    (db.respondents.filter (fun p => p.event_id == eventID && p.name == name)).length ≤ 1

/-- Every timestamp that the driver writes is accepted when it is read back. -/
def TimeCodec.RoundTrips (tc : TimeCodec) : Prop :=
  ∀ t, (parseCreatedAt tc (tc.format t)).isSome = true

/-- The databases that the three writing operations can produce from the
empty database when every `SubmitResponse` call names only date options of the
event it is submitted to (the check that `SubmitResponse` itself leaves out). -/
inductive ReachableOwned (tc : TimeCodec) : Store → Prop where
  | empty : ReachableOwned tc Store.empty
  | createEvent {db : Store} (req : CreateEventRequest) (eventID : String)
      (now returnedAt : Time) :
      ReachableOwned tc db → ReachableOwned tc (CreateEvent tc db req eventID now returnedAt).2
  | submitResponse {db : Store} (eventID : String) (req : SubmitResponseRequest) (now : Time) :
      (∀ q ∈ req.Responses,
        ∃ d ∈ db.event_dates, d.id = q.EventDateID ∧ d.event_id = eventID) →
      ReachableOwned tc db → ReachableOwned tc (SubmitResponse tc db eventID req now).2
  | finalizeEvent {db : Store} (eventID : String) (eventDateID : Int) :
      ReachableOwned tc db → ReachableOwned tc (FinalizeEvent db eventID eventDateID).2

/-- Every response row has a respondent row and a date option row, and the
date option belongs to the event of the respondent. -/
def ResponsesWithinEvent (db : Store) : Prop :=
  ∀ r ∈ db.responses,
    (∃ p ∈ db.respondents, p.id = r.respondent_id) ∧
    (∃ d ∈ db.event_dates, d.id = r.event_date_id) ∧
    ∀ p ∈ db.respondents, ∀ d ∈ db.event_dates,
      p.id = r.respondent_id → d.id = r.event_date_id → d.event_id = p.event_id

/-! ## sample data -/

/-- Two characters read as a two-digit number. -/
def twoDigits (a b : Char) : Option Nat :=
  if 48 ≤ a.toNat && a.toNat ≤ 57 && 48 ≤ b.toNat && b.toNat ≤ 57 then
    some ((a.toNat - 48) * 10 + (b.toNat - 48))
  else none

/-- Days of a month of the Gregorian calendar. -/
def daysIn (year month : Nat) : Nat :=
  if month = 2 then
    if year % 4 = 0 && (year % 100 != 0 || year % 400 = 0) then 29 else 28
  else if month = 4 || month = 6 || month = 9 || month = 11 then 30
  else 31

/-- Whether a text is a calendar date in the layout `2006-01-02`. -/
def isCalendarDate (text : List Char) : Bool :=
  match text with
  | [y1, y2, y3, y4, s1, m1, m2, s2, d1, d2] =>
    s1.toNat = 45 && s2.toNat = 45 &&
      match twoDigits y1 y2, twoDigits y3 y4, twoDigits m1 m2, twoDigits d1 d2 with
      | some c, some y, some m, some d =>
        1 ≤ m && m ≤ 12 && 1 ≤ d && d ≤ daysIn (c * 100 + y) m
      | _, _, _, _ => false
  | _ => false

/-- The text without one trailing `Z` (`strings.TrimSuffix(s, "Z")`). -/
def trimZ (text : List Char) : List Char :=
  match text.reverse with
  | c :: cs => if c.toNat = 90 then cs.reverse else text
  | [] => text

/-- What the go-sqlite3 driver and `Scan` into a Go string make of a `date`
column written as a calendar date in the layout `2006-01-02`: the column is
declared `DATE`, so the driver parses the text into a `time.Time`, and `Scan`
formats that with `time.RFC3339Nano`, midnight UTC of the day.  For a text in
none of the driver's layouts the driver returns the zero time; this function
gives that answer for every other text, so it does not cover a text in one of
the driver's layouts with a time of day, nor a text that is stored as a
number. -/
def scanDateSample (text : String) : String :=
  if isCalendarDate (trimZ text.data) then String.mk (trimZ text.data ++ "T00:00:00Z".data)
  else "0001-01-01T00:00:00Z"

/-- What `Scan` into a Go string yields for a `start_time` or `end_time` column
(declared `TIME`): a text that is stored as text comes back as written, and a
text stored as an integer of 64 bits comes back as the decimal digits of the
integer.  A text stored as a floating point number is returned as written
here, which the program does only when the text is already the shortest
form of the number. -/
def scanTimeSample (text : String) : String :=
  match decimalValue text.data with
  | none => text
  | some (m, k) =>
    if m % 10 ^ k = 0 && -(2 : Int) ^ 63 ≤ m / 10 ^ k && m / 10 ^ k < (2 : Int) ^ 63 then
      toString (m / 10 ^ k)
    else text

/-- A codec that writes a time as that many marks and reads the number of
marks back, and scans the `DATE` and `TIME` columns as `scanDateSample` and
`scanTimeSample` say. -/
def markCodec : TimeCodec :=
  ⟨fun t => String.mk (List.replicate t 'x'), scanDateSample, scanTimeSample,
    fun s => some s.length, fun _ => none⟩

/-- The create request of the "Team Sync" scenario. -/
def teamSync : CreateEventRequest :=
  ⟨"Team Sync", [⟨"2024-01-10", "09:00", "10:00"⟩, ⟨"2024-01-11", "14:00", "15:00"⟩]⟩

/-- The database of the "Team Sync" scenario: the event, then the responses of
Alice and of Bob. -/
def teamSyncStore : Store :=
  let s1 := (CreateEvent markCodec Store.empty teamSync "e1" 1 2).2
  let s2 := (SubmitResponse markCodec s1 "e1" ⟨"Alice", [⟨1, true⟩, ⟨2, false⟩]⟩ 3).2
  (SubmitResponse markCodec s2 "e1" ⟨"Bob", [⟨1, true⟩]⟩ 4).2

/-- The "Team Sync" event answered by Alice and then by Bob, with a clock that
reads 4 for Alice and 3 for Bob: Bob's row is the later one in the table and
the earlier one by `created_at`. -/
def lateAliceStore : Store :=
  let s1 := (CreateEvent markCodec Store.empty teamSync "e1" 1 2).2
  let s2 := (SubmitResponse markCodec s1 "e1" ⟨"Alice", [⟨1, true⟩, ⟨2, false⟩]⟩ 4).2
  (SubmitResponse markCodec s2 "e1" ⟨"Bob", [⟨1, true⟩]⟩ 3).2

/-- The database right after the "Team Sync" event was created. -/
def teamSyncCreated : Store :=
  (CreateEvent markCodec Store.empty teamSync "e1" 1 2).2

/-- The "Team Sync" database followed by a second event, whose date option
gets id 3. -/
def twoEvents : Store :=
  (CreateEvent markCodec teamSyncStore ⟨"Retro", [⟨"2024-02-01", "10:00", "11:00"⟩]⟩ "e2" 5 6).2

/-- A database with a respondent row for the event id "ghost", which names no
event row. -/
def ghostStore : Store :=
  (SubmitResponse markCodec teamSyncStore "ghost" ⟨"Carol", [⟨1, true⟩]⟩ 7).2

/-- A second create request, its two date options given in descending order of
start time. -/
def retro : CreateEventRequest :=
  ⟨"Retro", [⟨"2024-02-01", "10:00", "11:00"⟩, ⟨"2024-02-01", "09:00", "10:00"⟩]⟩

/-- The event that `CreateEvent` returns for `retro` after "Team Sync". -/
def retroEvent : Event :=
  ⟨"e2", "Retro", 6, none,
    [⟨3, "e2", "2024-02-01", "10:00", "11:00"⟩, ⟨4, "e2", "2024-02-01", "09:00", "10:00"⟩]⟩

/-- The database after `retro` was created on top of the "Team Sync" database. -/
def retroStore : Store :=
  (CreateEvent markCodec teamSyncStore retro "e2" 5 6).2

/-- The "Team Sync" database after the event was finalized to date option 2 and
then to date option 1. -/
def finalizedStore : Store :=
  (FinalizeEvent (FinalizeEvent teamSyncStore "e1" 2).2 "e1" 1).2

/-- The two-event database after "Dave" answered for event "e1" with date
option 3, which belongs to event "e2". -/
def crossStore : Store :=
  (SubmitResponse markCodec twoEvents "e1" ⟨"Dave", [⟨3, true⟩]⟩ 8).2

/-- The two-event database after "Dave" answered for event "e2" with its own
date option 3. -/
def ownedStore : Store :=
  (SubmitResponse markCodec twoEvents "e2" ⟨"Dave", [⟨3, true⟩]⟩ 8).2

/-! # Theorems -/

/-! ## the order of stored values -/

theorem char_eq_of_toNat_eq (a b : Char) (h : a.toNat = b.toNat) : a = b :=
  Char.ext (UInt32.ext (by simpa [Char.toNat, UInt32.toNat] using h))

theorem charsLE_total (a b : List Char) : charsLE a b = true ∨ charsLE b a = true := by
  induction a generalizing b with
  | nil => simp [charsLE]
  | cons x xs ih =>
    cases b with
    | nil => simp [charsLE]
    | cons y ys =>
      simp only [charsLE]
      rcases Nat.lt_trichotomy x.toNat y.toNat with h | h | h
      · simp [h]
      · simp [h, ih ys]
      · simp [h, Nat.lt_asymm h]

theorem charsLE_trans (a b c : List Char) (hab : charsLE a b = true)
    (hbc : charsLE b c = true) : charsLE a c = true := by
  induction a generalizing b c with
  | nil => simp [charsLE]
  | cons x xs ih =>
    cases b with
    | nil => simp [charsLE] at hab
    | cons y ys =>
      cases c with
      | nil => simp [charsLE] at hbc
      | cons z zs =>
        simp only [charsLE] at hab hbc ⊢
        split_ifs at hab hbc ⊢ <;> first
          | rfl
          | omega
          | exact ih ys zs hab hbc

theorem charsLE_antisymm (a b : List Char) (hab : charsLE a b = true)
    (hba : charsLE b a = true) : a = b := by
  induction a generalizing b with
  | nil =>
    cases b with
    | nil => rfl
    | cons y ys => simp [charsLE] at hba
  | cons x xs ih =>
    cases b with
    | nil => simp [charsLE] at hab
    | cons y ys =>
      simp only [charsLE] at hab hba
      split_ifs at hab hba <;> first
        | omega
        | simp at hab
        | simp at hba
        | (have hxy : x = y := char_eq_of_toNat_eq x y (by omega)
           rw [hxy, ih ys hab hba])

theorem textLE_total (a b : String) : textLE a b = true ∨ textLE b a = true :=
  charsLE_total _ _

theorem textLE_trans {a b c : String} (hab : textLE a b = true) (hbc : textLE b c = true) :
    textLE a c = true :=
  charsLE_trans _ _ _ hab hbc

theorem textLE_antisymm {a b : String} (hab : textLE a b = true) (hba : textLE b a = true) :
    a = b :=
  String.ext (charsLE_antisymm _ _ hab hba)

theorem storedLE_total (a b : String) : storedLE a b = true ∨ storedLE b a = true := by
  unfold storedLE
  cases decimalValue a.data <;> cases decimalValue b.data <;> simp
  · exact textLE_total a b
  · exact le_total _ _

theorem scaled_le_trans (x y z : Int) (i j k : Nat) (hxy : x * 10 ^ j ≤ y * 10 ^ i)
    (hyz : y * 10 ^ k ≤ z * 10 ^ j) : x * 10 ^ k ≤ z * 10 ^ i := by
  have hj : (0 : Int) < 10 ^ j := by positivity
  have hi : (0 : Int) ≤ 10 ^ i := by positivity
  have hk : (0 : Int) ≤ 10 ^ k := by positivity
  have h1 : x * 10 ^ j * 10 ^ k ≤ y * 10 ^ i * 10 ^ k := Int.mul_le_mul_of_nonneg_right hxy hk
  have h2 : y * 10 ^ k * 10 ^ i ≤ z * 10 ^ j * 10 ^ i := Int.mul_le_mul_of_nonneg_right hyz hi
  have h3 : x * 10 ^ k * 10 ^ j ≤ z * 10 ^ i * 10 ^ j := by
    calc x * 10 ^ k * 10 ^ j = x * 10 ^ j * 10 ^ k := by ring
      _ ≤ y * 10 ^ i * 10 ^ k := h1
      _ = y * 10 ^ k * 10 ^ i := by ring
      _ ≤ z * 10 ^ j * 10 ^ i := h2
      _ = z * 10 ^ i * 10 ^ j := by ring
  exact le_of_mul_le_mul_right h3 hj

theorem storedLE_trans {a b c : String} (hab : storedLE a b = true)
    (hbc : storedLE b c = true) : storedLE a c = true := by
  unfold storedLE at hab hbc ⊢
  cases ha : decimalValue a.data <;> cases hb : decimalValue b.data <;>
    cases hc : decimalValue c.data <;> simp only [ha, hb, hc] at hab hbc ⊢ <;>
    first
      | rfl
      | contradiction
      | exact textLE_trans hab hbc
      | (simp only [decide_eq_true_eq] at hab hbc ⊢
         exact scaled_le_trans _ _ _ _ _ _ hab hbc)

theorem dateOrder_total (a b : EventDateRow) : dateOrder a b ∨ dateOrder b a := by
  unfold dateOrder
  cases hba : storedLE b.date a.date with
  | false => exact Or.inl (Or.inl rfl)
  | true =>
    cases hab : storedLE a.date b.date with
    | false => exact Or.inr (Or.inl rfl)
    | true =>
      rcases storedLE_total a.start_time b.start_time with h | h
      · exact Or.inl (Or.inr ⟨rfl, h⟩)
      · exact Or.inr (Or.inr ⟨rfl, h⟩)

theorem dateOrder_trans (a b c : EventDateRow) (hab : dateOrder a b) (hbc : dateOrder b c) :
    dateOrder a c := by
  unfold dateOrder at hab hbc ⊢
  rcases hab with hab | ⟨hab, hab'⟩ <;> rcases hbc with hbc | ⟨hbc, hbc'⟩
  · left
    cases hca : storedLE c.date a.date with
    | false => rfl
    | true =>
      rcases storedLE_total a.date b.date with h | h
      · rw [storedLE_trans hca h] at hbc
        cases hbc
      · rw [h] at hab
        cases hab
  · left
    cases hca : storedLE c.date a.date with
    | false => rfl
    | true =>
      rw [storedLE_trans hbc hca] at hab
      cases hab
  · left
    cases hca : storedLE c.date a.date with
    | false => rfl
    | true =>
      rw [storedLE_trans hca hab] at hbc
      cases hbc
  · right; exact ⟨storedLE_trans hab hbc, storedLE_trans hab' hbc'⟩

instance dateOrder.isTotal : IsTotal EventDateRow dateOrder := ⟨dateOrder_total⟩

instance dateOrder.isTrans : IsTrans EventDateRow dateOrder := ⟨dateOrder_trans⟩

instance createdOrder.isTotal : IsTotal RespondentRow createdOrder :=
  ⟨fun a b => storedLE_total a.created_at b.created_at⟩

instance createdOrder.isTrans : IsTrans RespondentRow createdOrder :=
  ⟨fun _ _ _ hab hbc => storedLE_trans hab hbc⟩

/-! ## availability summary -/

theorem loadRespondents_ok (tc : TimeCodec) (db : Store) (rows : List RespondentRow)
    (h : ∀ row ∈ rows, (parseCreatedAt tc row.created_at).isSome = true) :
    loadRespondents tc db rows = .ok (rows.map (toRespondent tc db)) := by
  induction rows with
  | nil => rfl
  | cons row rest ih =>
    have h1 := h row (List.mem_cons_self _ _)
    have h2 := ih (fun r hr => h r (List.mem_cons_of_mem _ hr))
    obtain ⟨t, ht⟩ := Option.isSome_iff_exists.mp h1
    simp [loadRespondents, ht, h2, toRespondent]

theorem tallyResponses_eq (dateID : Int) (name : String) (rs : List Response) (t : Tally) :
    tallyResponses dateID name rs t =
      match firstAnswer dateID rs with
      | some true => ⟨t.availableCount + 1, t.unavailableCount, t.availableNames ++ [name]⟩
      | some false => ⟨t.availableCount, t.unavailableCount + 1, t.availableNames⟩
      | none => t := by
  induction rs with
  | nil => rfl
  | cons r rest ih =>
    by_cases hk : r.EventDateID = dateID
    · cases hav : r.Available <;> simp [tallyResponses, firstAnswer, hk, hav]
    · simp [tallyResponses, firstAnswer, hk]
      simpa [firstAnswer] using ih

theorem foldl_tally (dateID : Int) (rs : List Respondent) (t : Tally) :
    rs.foldl (fun t r => tallyResponses dateID r.Name r.Responses t) t =
      ⟨t.availableCount + (rs.filter (fun r => firstAnswer dateID r.Responses == some true)).length,
       t.unavailableCount + (rs.filter (fun r => firstAnswer dateID r.Responses == some false)).length,
       t.availableNames ++ (rs.filter (fun r => firstAnswer dateID r.Responses == some true)).map (·.Name)⟩ := by
  induction rs generalizing t with
  | nil => simp
  | cons r rest ih =>
    rw [List.foldl_cons, ih, tallyResponses_eq]
    rcases h : firstAnswer dateID r.Responses with _ | _ | _ <;>
      simp [h, List.filter_cons, Nat.add_assoc, Nat.add_comm 1]

theorem firstAnswer_filter (l : List ResponseRow) (pid dateID : Int) (av : Bool)
    (h : l.Pairwise
      (fun a b => ¬(a.respondent_id = b.respondent_id ∧ a.event_date_id = b.event_date_id))) :
    firstAnswer dateID ((l.filter (fun r => r.respondent_id == pid)).map
        (fun r => (⟨r.id, r.respondent_id, r.event_date_id, r.available⟩ : Response))) = some av ↔
      l.any (fun r => r.respondent_id == pid && r.event_date_id == dateID && r.available == av)
        = true := by
  induction l with
  | nil => simp [firstAnswer]
  | cons r rest ih =>
    rw [List.pairwise_cons] at h
    obtain ⟨hr, hrest⟩ := h
    have ih := ih hrest
    by_cases hp : r.respondent_id = pid
    · by_cases hk : r.event_date_id = dateID
      · have hnone : rest.any (fun r => r.respondent_id == pid && r.event_date_id == dateID
            && r.available == av) = false := by
          rw [List.any_eq_false]
          intro b hb hcon
          simp only [Bool.and_eq_true, beq_iff_eq] at hcon
          exact hr b hb ⟨hp.trans hcon.1.1.symm, hk.trans hcon.1.2.symm⟩
        simp [firstAnswer, hp, hk, hnone]
      · simp only [firstAnswer] at ih ⊢
        simp at ih
        simp [hp, hk, ih]
    · simp only [firstAnswer] at ih ⊢
      simp at ih
      simp [hp, ih]

theorem firstAnswer_select (db : Store) (pid dateID : Int) (av : Bool)
    (hone : OneResponsePerDate db) :
    firstAnswer dateID (selectResponses db pid) = some av ↔
      hasResponse db pid dateID av = true := by
  have hperm := List.perm_insertionSort indexOrder
    (db.responses.filter (fun r => r.respondent_id == pid))
  have hpw : ((db.responses.filter (fun r => r.respondent_id == pid)).insertionSort
      indexOrder).Pairwise
      (fun a b => ¬(a.respondent_id = b.respondent_id ∧ a.event_date_id = b.event_date_id)) :=
    (hperm.pairwise_iff (fun hab hba => hab ⟨hba.1.symm, hba.2.symm⟩)).mpr
      (List.Pairwise.filter _ hone)
  have hself : ((db.responses.filter (fun r => r.respondent_id == pid)).insertionSort
      indexOrder).filter (fun r => r.respondent_id == pid) =
      (db.responses.filter (fun r => r.respondent_id == pid)).insertionSort indexOrder := by
    rw [List.filter_eq_self]
    intro x hx
    exact (List.mem_filter.mp (hperm.mem_iff.mp hx)).2
  have h := firstAnswer_filter _ pid dateID av hpw
  rw [hself] at h
  unfold selectResponses hasResponse
  rw [h, List.any_eq_true, List.any_eq_true]
  constructor
  · rintro ⟨x, hx, hp⟩
    exact ⟨x, (List.mem_filter.mp (hperm.mem_iff.mp hx)).1, hp⟩
  · rintro ⟨x, hx, hp⟩
    refine ⟨x, hperm.mem_iff.mpr (List.mem_filter.mpr ⟨hx, ?_⟩), hp⟩
    simp only [Bool.and_eq_true] at hp
    exact hp.1.1

theorem summarize_lookup (rs : List Respondent) (dates : List EventDate) (m : SummaryMap)
    (k : Int) :
    dates.foldl
      (fun summary date =>
        let t := tallyRespondents date.ID rs
        summary.set date.ID ⟨date.ID, t.availableCount, t.unavailableCount, t.availableNames⟩)
      m k =
    if dates.any (fun d => d.ID == k) then
      some ⟨k, (tallyRespondents k rs).availableCount, (tallyRespondents k rs).unavailableCount,
        (tallyRespondents k rs).availableNames⟩
    else m k := by
  induction dates generalizing m with
  | nil => simp
  | cons d rest ih =>
    rw [List.foldl_cons, ih]
    by_cases hrest : rest.any (fun d => d.ID == k) = true
    · simp [hrest]
    · by_cases hd : d.ID = k
      · subst hd
        simp [hrest, SummaryMap.set]
      · have hd' : ¬ k = d.ID := fun h => hd h.symm
        simp [hrest, hd, hd', SummaryMap.set]

theorem selectEvent_of_mem (db : Store) (eventID : String)
    (h : ∃ e ∈ db.events, e.id = eventID) :
    ∃ row, selectEvent db eventID = some row ∧ row ∈ db.events ∧ row.id = eventID := by
  obtain ⟨e, he, hid⟩ := h
  unfold selectEvent
  cases hf : db.events.find? (fun r => r.id == eventID) with
  | none =>
    rw [List.find?_eq_none] at hf
    exact absurd (by simpa using hid) (hf e he)
  | some row =>
    exact ⟨row, rfl, List.mem_of_find?_eq_some hf, by simpa using List.find?_some hf⟩

theorem tallyRespondents_select (tc : TimeCodec) (db : Store) (eventID : String) (dateID : Int)
    (hone : OneResponsePerDate db) :
    tallyRespondents dateID ((selectRespondents db eventID).map (toRespondent tc db)) =
      ⟨(respondentsAnswering db eventID dateID true).length,
       (respondentsAnswering db eventID dateID false).length,
       (respondentsAnswering db eventID dateID true).map (·.name)⟩ := by
  have key : ∀ av : Bool,
      ((selectRespondents db eventID).map (toRespondent tc db)).filter
          (fun r => firstAnswer dateID r.Responses == some av) =
        (respondentsAnswering db eventID dateID av).map (toRespondent tc db) := by
    intro av
    rw [List.filter_map, respondentsAnswering]
    congr 1
    apply List.filter_congr
    intro p _
    have := firstAnswer_select db p.id dateID av hone
    simp only [Function.comp, toRespondent]
    rw [Bool.eq_iff_iff]
    simpa using this
  unfold tallyRespondents
  rw [foldl_tally, key true, key false]
  simp [toRespondent, Function.comp]

theorem getRespondents_ok (tc : TimeCodec) (db : Store) (eventID : String)
    (hread : Readable tc db eventID) :
    getRespondents tc db eventID = .ok ((selectRespondents db eventID).map (toRespondent tc db)) := by
  unfold getRespondents
  apply loadRespondents_ok
  intro row hrow
  unfold selectRespondents at hrow
  rw [List.mem_insertionSort, List.mem_filter] at hrow
  exact hread.2 row hrow.1 (by simpa using hrow.2)

theorem GetEvent_ok (tc : TimeCodec) (db : Store) (eventID : String)
    (hevent : ∃ e ∈ db.events, e.id = eventID) (hread : Readable tc db eventID) :
    ∃ row createdAt, selectEvent db eventID = some row ∧ row.id = eventID ∧
      GetEvent tc db eventID = .ok ⟨eventID, row.name, createdAt, row.finalized_date_id,
        (selectEventDates db eventID).map (scanEventDate tc)⟩ := by
  obtain ⟨row, hsel, hmem, hid⟩ := selectEvent_of_mem db eventID hevent
  obtain ⟨t, ht⟩ := Option.isSome_iff_exists.mp (hread.1 row hmem hid)
  refine ⟨row, t, hsel, hid, ?_⟩
  simp [GetEvent, hsel, ht, hid]

/-- What `GetEventResults` returns, in terms of the rows that the respondents
query selects. -/
theorem GetEventResults_fetched (tc : TimeCodec) (db : Store) (eventID : String)
    (hevent : ∃ e ∈ db.events, e.id = eventID)
    (hread : Readable tc db eventID)
    (hone : OneResponsePerDate db) :
    ∃ res, GetEventResults tc db eventID = .ok res ∧
      res.Respondents = (selectRespondents db eventID).map (toRespondent tc db) ∧
      ∀ d ∈ db.event_dates, d.event_id = eventID →
        res.Summary d.id = some
          ⟨d.id, (respondentsAnswering db eventID d.id true).length,
            (respondentsAnswering db eventID d.id false).length,
            (respondentsAnswering db eventID d.id true).map (·.name)⟩ := by
  obtain ⟨row, t, _, _, hget⟩ := GetEvent_ok tc db eventID hevent hread
  have hres : GetEventResults tc db eventID = .ok
      ⟨⟨eventID, row.name, t, row.finalized_date_id,
          (selectEventDates db eventID).map (scanEventDate tc)⟩,
        (selectRespondents db eventID).map (toRespondent tc db),
        summarize ((selectEventDates db eventID).map (scanEventDate tc))
          ((selectRespondents db eventID).map (toRespondent tc db))⟩ := by
    simp only [GetEventResults, hget, getRespondents_ok tc db eventID hread]
  refine ⟨_, hres, rfl, ?_⟩
  intro d hd hde
  have hmem : ((selectEventDates db eventID).map (scanEventDate tc)).any
      (fun x => x.ID == d.id) = true := by
    rw [List.any_eq_true]
    refine ⟨scanEventDate tc d, ?_, by simp [scanEventDate]⟩
    rw [List.mem_map]
    refine ⟨d, ?_, rfl⟩
    unfold selectEventDates
    rw [List.mem_insertionSort, List.mem_filter]
    exact ⟨hd, by simpa using hde⟩
  show summarize _ _ d.id = _
  unfold summarize
  rw [summarize_lookup, if_pos hmem, tallyRespondents_select tc db eventID d.id hone]

theorem selectRespondents_perm (db : Store) (eventID : String) :
    (selectRespondents db eventID).Perm
      (db.respondents.filter (fun p => p.event_id == eventID)) :=
  List.perm_insertionSort createdOrder _

/-- The respondents that the query selects and that answered a date option are
as many as the rows of the table that do. -/
theorem respondentsAnswering_length (db : Store) (eventID : String) (dateID : Int)
    (available : Bool) :
    (respondentsAnswering db eventID dateID available).length =
      (db.respondents.filter
        (fun p => p.event_id == eventID && hasResponse db p.id dateID available)).length := by
  unfold respondentsAnswering
  rw [((selectRespondents_perm db eventID).filter _).length_eq, List.filter_filter]
  congr 1
  apply List.filter_congr
  intro p _
  exact Bool.and_comm _ _

/-- C1. For an existing event whose timestamps are readable, in a database
with at most one response per respondent and date option, `GetEventResults`
succeeds and lists as respondents the rows of `respondents` with that event
id, each once, in ascending order of the stored `created_at`.  Its summary has
under `d.id`, for every date option `d` of the event, the entry with that id,
the number of the event's respondent rows with an available response row for
`d`, the number with an unavailable response row for `d`, and the names of the
available ones in the order in which the respondents are listed; a respondent
without a response row for `d` is in neither. -/
theorem GetEventResults_summary (tc : TimeCodec) (db : Store) (eventID : String)
    (hevent : ∃ e ∈ db.events, e.id = eventID)
    (hread : Readable tc db eventID)
    (hone : OneResponsePerDate db) :
    ∃ (res : EventResults) (fetched : List RespondentRow),
      GetEventResults tc db eventID = .ok res ∧
      fetched.Perm (db.respondents.filter (fun p => p.event_id == eventID)) ∧
      fetched.Sorted (fun a b => storedLE a.created_at b.created_at = true) ∧
      res.Respondents.map (fun r => (r.ID, r.Name)) = fetched.map (fun p => (p.id, p.name)) ∧
      ∀ d ∈ db.event_dates, d.event_id = eventID →
        res.Summary d.id = some
          ⟨d.id,
            (db.respondents.filter
              (fun p => p.event_id == eventID && hasResponse db p.id d.id true)).length,
            (db.respondents.filter
              (fun p => p.event_id == eventID && hasResponse db p.id d.id false)).length,
            (fetched.filter (fun p => hasResponse db p.id d.id true)).map (·.name)⟩ := by
  obtain ⟨res, hres, hresp, hsum⟩ := GetEventResults_fetched tc db eventID hevent hread hone
  refine ⟨res, selectRespondents db eventID, hres, selectRespondents_perm db eventID,
    List.sorted_insertionSort createdOrder _, ?_, ?_⟩
  · rw [hresp]
    simp [toRespondent, Function.comp]
  · intro d hd hde
    rw [hsum d hd hde, respondentsAnswering_length, respondentsAnswering_length]
    rfl

theorem GetEventResults_summary_witness :
    ((∃ e ∈ lateAliceStore.events, e.id = "e1") ∧ Readable markCodec lateAliceStore "e1" ∧
      OneResponsePerDate lateAliceStore) ∧
    lateAliceStore.respondents.map (fun p => (p.id, p.name, p.created_at)) =
      [(1, "Alice", "xxxx"), (2, "Bob", "xxx")] ∧
    (GetEventResults markCodec lateAliceStore "e1").toOption.map
        (fun res => (res.Respondents.map (·.Name), res.Summary 1, res.Summary 2)) =
      some (["Bob", "Alice"], some ⟨1, 2, 0, ["Bob", "Alice"]⟩, some ⟨2, 0, 1, []⟩) ∧
    ∃ (res : EventResults) (fetched : List RespondentRow),
      GetEventResults markCodec lateAliceStore "e1" = .ok res ∧
      fetched.Perm (lateAliceStore.respondents.filter (fun p => p.event_id == "e1")) ∧
      fetched.Sorted (fun a b => storedLE a.created_at b.created_at = true) ∧
      res.Respondents.map (fun r => (r.ID, r.Name)) = fetched.map (fun p => (p.id, p.name)) ∧
      ∀ d ∈ lateAliceStore.event_dates, d.event_id = "e1" →
        res.Summary d.id = some
          ⟨d.id,
            (lateAliceStore.respondents.filter
              (fun p => p.event_id == "e1" && hasResponse lateAliceStore p.id d.id true)).length,
            (lateAliceStore.respondents.filter
              (fun p => p.event_id == "e1" && hasResponse lateAliceStore p.id d.id false)).length,
            (fetched.filter (fun p => hasResponse lateAliceStore p.id d.id true)).map
              (·.name)⟩ :=
  ⟨⟨by decide, by unfold Readable; decide, by unfold OneResponsePerDate; decide⟩,
    by decide, by decide,
    GetEventResults_summary markCodec lateAliceStore "e1" (by decide)
      (by unfold Readable; decide) (by unfold OneResponsePerDate; decide)⟩

/-- The "Team Sync" scenario: date 1 has Alice and Bob available, date 2 has one
unavailable respondent and no name. -/
theorem teamSync_scenario :
    ∃ res, GetEventResults markCodec teamSyncStore "e1" = .ok res ∧
      res.Summary 1 = some ⟨1, 2, 0, ["Alice", "Bob"]⟩ ∧
      res.Summary 2 = some ⟨2, 0, 1, []⟩ :=
  ⟨_, rfl, by decide, by decide⟩

/-! ## submitting responses -/

theorem insertResponses_ok (rid : Int) (R : List ResponseRequest) (v : Store)
    (hR : DistinctDates R)
    (hv : ∀ row ∈ v.responses, row.respondent_id = rid →
      ∀ q ∈ R, q.EventDateID ≠ row.event_date_id) :
    ∃ v' new, insertResponses rid R v = .ok v' ∧
      v'.responses = v.responses ++ new ∧
      new.map ResponseRow.triple = R.map (fun q => (rid, q.EventDateID, q.Available)) ∧
      v'.events = v.events ∧ v'.event_dates = v.event_dates ∧
      v'.respondents = v.respondents := by
  induction R generalizing v with
  | nil => exact ⟨v, [], rfl, by simp, rfl, rfl, rfl, rfl⟩
  | cons q rest ih =>
    unfold DistinctDates at hR
    rw [List.pairwise_cons] at hR
    obtain ⟨hq, hrest⟩ := hR
    have hfree : v.responses.any
        (fun r => r.respondent_id == rid && r.event_date_id == q.EventDateID) = false := by
      rw [List.any_eq_false]
      intro row hrow hcon
      simp only [Bool.and_eq_true, beq_iff_eq] at hcon
      exact hv row hrow hcon.1 q (List.mem_cons_self _ _) hcon.2.symm
    obtain ⟨v', new, hok, hresp, hnew, he, hd, hp⟩ := ih
      { v with
        responses := v.responses ++
          [⟨nextID v.seq_responses (v.responses.map (·.id)), rid, q.EventDateID, q.Available⟩],
        seq_responses := nextID v.seq_responses (v.responses.map (·.id)) }
      hrest
      (by
        intro row hrow hrid p hp
        simp only [List.mem_append, List.mem_singleton] at hrow
        rcases hrow with hrow | hrow
        · exact hv row hrow hrid p (List.mem_cons_of_mem _ hp)
        · subst hrow
          exact fun h => hq p hp h.symm)
    refine ⟨v', ⟨nextID v.seq_responses (v.responses.map (·.id)), rid, q.EventDateID,
      q.Available⟩ :: new, ?_, ?_, ?_, he, hd, hp⟩
    · simp only [insertResponses, insertResponse, hfree]
      exact hok
    · rw [hresp]; simp
    · simp [hnew, ResponseRow.triple]


theorem SubmitResponse_ok (tc : TimeCodec) (db : Store) (eventID name : String)
    (R : List ResponseRequest) (now : Time) (hR : DistinctDates R) :
    ∃ db' rid new,
      SubmitResponse tc db eventID ⟨name, R⟩ now = (none, db') ∧
      db'.events = db.events ∧ db'.event_dates = db.event_dates ∧
      ((selectRespondentID db eventID name = some rid ∧ db'.respondents = db.respondents) ∨
        (selectRespondentID db eventID name = none ∧
          db'.respondents = db.respondents ++ [⟨rid, eventID, name, tc.format now⟩])) ∧
      db'.responses = db.responses.filter (fun r => r.respondent_id != rid) ++ new ∧
      new.map ResponseRow.triple = R.map (fun q => (rid, q.EventDateID, q.Available)) := by
  cases hsel : selectRespondentID db eventID name with
  | some rid =>
    obtain ⟨v', new, hok, hresp, hnew, he, hd, hp⟩ :=
      insertResponses_ok rid R (deleteResponses db rid) hR (by
        intro row hrow hrid
        simp [deleteResponses, hrid] at hrow)
    refine ⟨v', rid, new, ?_, he, hd, Or.inl ⟨rfl, hp⟩, hresp, hnew⟩
    simp [SubmitResponse, resolveRespondent, Begin, hsel, hok, Tx.Commit]
  | none =>
    obtain ⟨v', new, hok, hresp, hnew, he, hd, hp⟩ :=
      insertResponses_ok (nextID db.seq_respondents (db.respondents.map (·.id))) R
        (deleteResponses
          { db with
            respondents := db.respondents ++
              [⟨nextID db.seq_respondents (db.respondents.map (·.id)), eventID, name,
                tc.format now⟩],
            seq_respondents := nextID db.seq_respondents (db.respondents.map (·.id)) }
          (nextID db.seq_respondents (db.respondents.map (·.id)))) hR (by
        intro row hrow hrid
        simp [deleteResponses, hrid] at hrow)
    refine ⟨v', nextID db.seq_respondents (db.respondents.map (fun p : RespondentRow => p.id)),
      new, ?_, he, hd, Or.inr ⟨rfl, ?_⟩, ?_, hnew⟩
    rotate_left
    · exact hp
    · exact hresp
    simp [SubmitResponse, resolveRespondent, Begin, hsel, insertRespondent, hok, Tx.Commit]


theorem eq_of_filter_length_le_one {α : Type} (p : α → Bool) (l : List α)
    (h : (l.filter p).length ≤ 1) (a b : α) (ha : a ∈ l) (hb : b ∈ l)
    (hpa : p a = true) (hpb : p b = true) : a = b := by
  have ha' : a ∈ l.filter p := List.mem_filter.mpr ⟨ha, hpa⟩
  have hb' : b ∈ l.filter p := List.mem_filter.mpr ⟨hb, hpb⟩
  match hl : l.filter p, h with
  | [], _ => simp [hl] at ha'
  | [x], _ =>
    rw [hl] at ha' hb'
    simp at ha' hb'
    rw [ha', hb']
  | _ :: _ :: _, h => simp at h

theorem selectRespondentID_some (db : Store) (eventID name : String) (rid : Int)
    (h : selectRespondentID db eventID name = some rid) :
    ∃ row ∈ db.respondents, row.event_id = eventID ∧ row.name = name ∧ row.id = rid := by
  unfold selectRespondentID at h
  rw [Option.map_eq_some'] at h
  obtain ⟨row, hrow, hid⟩ := h
  have hp := List.find?_some hrow
  simp only [Bool.and_eq_true, beq_iff_eq] at hp
  exact ⟨row, List.mem_of_find?_eq_some hrow, hp.1, hp.2, hid⟩

theorem selectRespondentID_none (db : Store) (eventID name : String)
    (h : selectRespondentID db eventID name = none) :
    db.respondents.filter (fun p => p.event_id == eventID && p.name == name) = [] := by
  unfold selectRespondentID at h
  rw [Option.map_eq_none', List.find?_eq_none] at h
  rw [List.filter_eq_nil_iff]
  exact h

/-- The state after a successful submission, as far as later submissions and
reads of the same respondent are concerned. -/
theorem SubmitResponse_after (tc : TimeCodec) (db : Store) (eventID name : String)
    (R : List ResponseRequest) (now : Time) (hR : DistinctDates R)
    (hread : Readable tc db eventID)
    (hfmt : selectRespondentID db eventID name = none →
      (parseCreatedAt tc (tc.format now)).isSome = true)
    (hunique :
      (db.respondents.filter (fun p => p.event_id == eventID && p.name == name)).length ≤ 1) :
    ∃ db' rid,
      SubmitResponse tc db eventID ⟨name, R⟩ now = (none, db') ∧
      db'.events = db.events ∧ db'.event_dates = db.event_dates ∧
      Readable tc db' eventID ∧
      (db'.respondents.filter (fun p => p.event_id == eventID && p.name == name)).length ≤ 1 ∧
      selectRespondentID db' eventID name = some rid ∧
      (db'.responses.filter (fun r => r.respondent_id == rid)).map
          (fun r => (r.event_date_id, r.available)) =
        R.map (fun q => (q.EventDateID, q.Available)) ∧
      (OneResponsePerDate db → OneResponsePerDate db') := by
  obtain ⟨db', rid, new, hok, he, hd, hp, hresp, hnew⟩ :=
    SubmitResponse_ok tc db eventID name R now hR
  have hnewrid : ∀ x ∈ new, x.respondent_id = rid := by
    intro x hx
    have : x.triple ∈ new.map ResponseRow.triple := List.mem_map_of_mem _ hx
    rw [hnew, List.mem_map] at this
    obtain ⟨q, _, hq⟩ := this
    simp only [ResponseRow.triple, Prod.mk.injEq] at hq
    exact hq.1.symm
  have hsel : (db'.responses.filter (fun r => r.respondent_id == rid)).map
      (fun r => (r.event_date_id, r.available)) =
      R.map (fun q => (q.EventDateID, q.Available)) := by
    have h1 : (db'.responses.filter (fun r => r.respondent_id == rid)) = new := by
      rw [hresp, List.filter_append, List.filter_filter]
      have : new.filter (fun r => r.respondent_id == rid) = new :=
        List.filter_eq_self.mpr (fun x hx => by simpa using hnewrid x hx)
      rw [this]
      simp
    have h2 := congrArg (List.map (fun t : Int × Int × Bool => t.2)) hnew
    simp only [List.map_map] at h2
    rw [h1]
    exact h2
  have hkeep : OneResponsePerDate db → OneResponsePerDate db' := by
    intro hone
    unfold OneResponsePerDate
    rw [hresp, List.pairwise_append]
    refine ⟨List.Pairwise.filter _ hone, ?_, ?_⟩
    · have hmapped : (new.map ResponseRow.triple).Pairwise
          (fun a b => ¬(a.1 = b.1 ∧ a.2.1 = b.2.1)) := by
        rw [hnew, List.pairwise_map]
        exact hR.imp (fun hne hcon => hne hcon.2)
      rw [List.pairwise_map] at hmapped
      exact hmapped
    · intro a ha b hb hcon
      have har := (List.mem_filter.mp ha).2
      simp only [bne_iff_ne, ne_eq] at har
      exact har (hcon.1.trans (hnewrid b hb))
  refine ⟨db', rid, hok, he, hd, ?_, ?_, ?_, hsel, hkeep⟩
  · rcases hp with ⟨_, hp⟩ | ⟨hnone, hp⟩
    · exact ⟨by rw [he]; exact hread.1, by rw [hp]; exact hread.2⟩
    · refine ⟨by rw [he]; exact hread.1, ?_⟩
      rw [hp]
      intro p hpm hpe
      simp only [List.mem_append, List.mem_singleton] at hpm
      rcases hpm with hpm | hpm
      · exact hread.2 p hpm hpe
      · subst hpm; exact hfmt hnone
  · rcases hp with ⟨_, hp⟩ | ⟨hnone, hp⟩
    · rw [hp]; exact hunique
    · rw [hp, List.filter_append, selectRespondentID_none db eventID name hnone]
      simp
  · rcases hp with ⟨hsome, hp⟩ | ⟨hnone, hp⟩
    · unfold selectRespondentID at hsome ⊢
      rw [hp]; exact hsome
    · unfold selectRespondentID at hnone ⊢
      rw [Option.map_eq_none'] at hnone
      rw [hp, List.find?_append, hnone]
      simp


theorem firstAnswer_some_mem (dateID : Int) (rs : List Response) (av : Bool)
    (h : firstAnswer dateID rs = some av) :
    ∃ x ∈ rs, x.EventDateID = dateID := by
  unfold firstAnswer at h
  rw [Option.map_eq_some'] at h
  obtain ⟨x, hx, _⟩ := h
  exact ⟨x, List.mem_of_find?_eq_some hx, by simpa using List.find?_some hx⟩

theorem selectResponses_perm (db : Store) (rid : Int) :
    ((selectResponses db rid).map (fun x => (x.EventDateID, x.Available))).Perm
      ((db.responses.filter (fun r => r.respondent_id == rid)).map
        (fun r => (r.event_date_id, r.available))) := by
  unfold selectResponses
  rw [List.map_map]
  exact (List.perm_insertionSort indexOrder _).map _

/-- Alice answers date option 2 and then date option 1 in one list; her
responses are read back with date option 1 first. -/
theorem selectResponses_sample :
    (selectResponses
        (SubmitResponse markCodec teamSyncCreated "e1" ⟨"Alice", [⟨2, true⟩, ⟨1, false⟩]⟩ 3).2
        1).map (fun x => (x.EventDateID, x.Available)) = [(1, false), (2, true)] := by
  decide

/-- C2. In a database that holds the event, readable timestamps, at most one
response row per respondent and date option and at most one respondent row for
(event, name), two submissions under that name, each without a repeated date
option, both succeed.  Afterwards `GetEventResults` lists exactly one
respondent with that name, and the responses of that respondent are exactly
the pairs of the second list.  For every date option of the event outside the
second list the respondent has no response, and the summary of that date
option counts the other respondents of the event only and does not name the
respondent. -/
theorem SubmitResponse_twice_replaces (tc : TimeCodec) (db : Store) (eventID name : String)
    (R1 R2 : List ResponseRequest) (now1 now2 : Time)
    (hevent : ∃ e ∈ db.events, e.id = eventID)
    (hread : Readable tc db eventID)
    (hfmt : (parseCreatedAt tc (tc.format now1)).isSome = true)
    (hunique :
      (db.respondents.filter (fun p => p.event_id == eventID && p.name == name)).length ≤ 1)
    (hone : OneResponsePerDate db)
    (hR1 : DistinctDates R1) (hR2 : DistinctDates R2) :
    ∃ db1 db2 res,
      SubmitResponse tc db eventID ⟨name, R1⟩ now1 = (none, db1) ∧
      SubmitResponse tc db1 eventID ⟨name, R2⟩ now2 = (none, db2) ∧
      GetEventResults tc db2 eventID = .ok res ∧
      res.Respondents.countP (fun r => r.Name == name) = 1 ∧
      (∀ r ∈ res.Respondents, r.Name = name →
        (r.Responses.map (fun x => (x.EventDateID, x.Available))).Perm
          (R2.map (fun q => (q.EventDateID, q.Available)))) ∧
      (∀ d ∈ db.event_dates, d.event_id = eventID → (∀ q ∈ R2, q.EventDateID ≠ d.id) →
        (∀ r ∈ res.Respondents, r.Name = name → ∀ x ∈ r.Responses, x.EventDateID ≠ d.id) ∧
        ∃ sm, res.Summary d.id = some sm ∧
          sm.AvailableCount = (db2.respondents.filter (fun p =>
            p.event_id == eventID && p.name != name && hasResponse db2 p.id d.id true)).length ∧
          sm.UnavailableCount = (db2.respondents.filter (fun p =>
            p.event_id == eventID && p.name != name && hasResponse db2 p.id d.id false)).length ∧
          name ∉ sm.AvailableNames) := by
  obtain ⟨db1, rid1, hok1, he1, hd1, hread1, huniq1, hsel1, _, hone1⟩ :=
    SubmitResponse_after tc db eventID name R1 now1 hR1 hread (fun _ => hfmt) hunique
  obtain ⟨db2, rid, hok2, he2, hd2, hread2, huniq2, hsel2, hrows2, hone2⟩ :=
    SubmitResponse_after tc db1 eventID name R2 now2 hR2 hread1
      (fun h => by rw [hsel1] at h; cases h) huniq1
  have hone2 := hone2 (hone1 hone)
  have hevent2 : ∃ e ∈ db2.events, e.id = eventID := by rw [he2, he1]; exact hevent
  obtain ⟨res, hres, hresp, hsum⟩ := GetEventResults_fetched tc db2 eventID hevent2 hread2 hone2
  obtain ⟨prow, hprow, hpe, hpn, hpid⟩ := selectRespondentID_some db2 eventID name rid hsel2
  -- every respondent row of the event with that name is the row of `rid`
  have hrow : ∀ p ∈ db2.respondents, p.event_id = eventID → p.name = name → p.id = rid := by
    intro p hp hpe' hpn'
    rw [eq_of_filter_length_le_one _ _ huniq2 p prow hp hprow (by simp [hpe', hpn'])
      (by simp [hpe, hpn])]
    exact hpid
  have hmine : ∀ r ∈ res.Respondents, r.Name = name →
      (r.Responses.map (fun x => (x.EventDateID, x.Available))).Perm
        (R2.map (fun q => (q.EventDateID, q.Available))) := by
    intro r hr hname
    rw [hresp, List.mem_map] at hr
    obtain ⟨p, hp, rfl⟩ := hr
    have hp' := List.mem_filter.mp ((selectRespondents_perm db2 eventID).mem_iff.mp hp)
    have hid : p.id = rid := hrow p hp'.1 (by simpa using hp'.2) hname
    simp only [toRespondent]
    rw [hid, ← hrows2]
    exact selectResponses_perm db2 rid
  -- the respondent has no response row for a date option outside the second list
  have hnone : ∀ (d : Int) (av : Bool), (∀ q ∈ R2, q.EventDateID ≠ d) →
      hasResponse db2 rid d av = false := by
    intro d av hd
    unfold hasResponse
    rw [List.any_eq_false]
    intro x hx hcon
    simp only [Bool.and_eq_true, beq_iff_eq] at hcon
    have hpair : (x.event_date_id, x.available) ∈
        (db2.responses.filter (fun r => r.respondent_id == rid)).map
          (fun r => (r.event_date_id, r.available)) :=
      List.mem_map_of_mem _ (List.mem_filter.mpr ⟨hx, by simpa using hcon.1.1⟩)
    rw [hrows2, List.mem_map] at hpair
    obtain ⟨q, hq, hqe⟩ := hpair
    simp only [Prod.mk.injEq] at hqe
    exact hd q hq (hqe.1.trans hcon.1.2)
  refine ⟨db1, db2, res, hok1, hok2, hres, ?_, hmine, ?_⟩
  · rw [hresp, List.countP_map, (selectRespondents_perm db2 eventID).countP_eq,
      List.countP_filter, List.countP_eq_length_filter]
    have hle : (db2.respondents.filter
        (fun p => p.event_id == eventID && p.name == name)).length ≤ 1 := huniq2
    have hmem : prow ∈ db2.respondents.filter
        (fun p => p.event_id == eventID && p.name == name) :=
      List.mem_filter.mpr ⟨hprow, by simp [hpe, hpn]⟩
    have hpos : 0 < (db2.respondents.filter
        (fun p => p.event_id == eventID && p.name == name)).length :=
      List.length_pos_of_mem hmem
    have hfun : (fun a : RespondentRow =>
        ((fun r : Respondent => r.Name == name) ∘ toRespondent tc db2) a &&
          (a.event_id == eventID)) =
        (fun p => p.event_id == eventID && p.name == name) := by
      funext a
      simp [toRespondent, Function.comp, Bool.and_comm]
    rw [hfun]
    omega
  · intro d hd hde hout
    have hd2' : d ∈ db2.event_dates := by rw [hd2, hd1]; exact hd
    have hothers : ∀ av : Bool,
        (respondentsAnswering db2 eventID d.id av).length =
          (db2.respondents.filter (fun p =>
            p.event_id == eventID && p.name != name && hasResponse db2 p.id d.id av)).length := by
      intro av
      rw [respondentsAnswering_length]
      congr 1
      apply List.filter_congr
      intro p hp
      by_cases hpe' : p.event_id = eventID
      · by_cases hpn' : p.name = name
        · rw [hrow p hp hpe' hpn', hnone d.id av hout]
          simp
        · simp [hpe', hpn']
      · have hb : (p.event_id == eventID) = false := beq_eq_false_iff_ne.mpr hpe'
        rw [hb]
        rfl
    refine ⟨?_, _, hsum d hd2' hde, hothers true, hothers false, ?_⟩
    · intro r hr hname x hx hxd
      have hpair : (x.EventDateID, x.Available) ∈
          r.Responses.map (fun x => (x.EventDateID, x.Available)) :=
        List.mem_map_of_mem _ hx
      rw [(hmine r hr hname).mem_iff, List.mem_map] at hpair
      obtain ⟨q, hq, hqe⟩ := hpair
      simp only [Prod.mk.injEq] at hqe
      exact hout q hq (hqe.1.trans hxd)
    · intro hin
      simp only [respondentsAnswering, List.mem_map, List.mem_filter] at hin
      obtain ⟨p, ⟨hp, hhas⟩, hpn'⟩ := hin
      have hp' := List.mem_filter.mp ((selectRespondents_perm db2 eventID).mem_iff.mp hp)
      rw [hrow p hp'.1 (by simpa using hp'.2) hpn', hnone d.id true hout] at hhas
      cases hhas

theorem SubmitResponse_twice_replaces_witness :
    ((∃ e ∈ teamSyncStore.events, e.id = "e1") ∧ Readable markCodec teamSyncStore "e1" ∧
      (parseCreatedAt markCodec (markCodec.format 5)).isSome = true ∧
      (teamSyncStore.respondents.filter
        (fun p => p.event_id == "e1" && p.name == "Alice")).length ≤ 1 ∧
      OneResponsePerDate teamSyncStore ∧
      DistinctDates [⟨1, true⟩] ∧ DistinctDates [⟨2, true⟩]) ∧
    (GetEventResults markCodec
        (SubmitResponse markCodec
          (SubmitResponse markCodec teamSyncStore "e1" ⟨"Alice", [⟨1, true⟩]⟩ 5).2
          "e1" ⟨"Alice", [⟨2, true⟩]⟩ 6).2 "e1").toOption.map
        (fun res => (res.Respondents.map (fun r => (r.Name,
          r.Responses.map (fun x => (x.EventDateID, x.Available)))), res.Summary 1,
          res.Summary 2)) =
      some ([("Alice", [(2, true)]), ("Bob", [(1, true)])],
        some ⟨1, 1, 0, ["Bob"]⟩, some ⟨2, 1, 0, ["Alice"]⟩) ∧
    ∃ db1 db2 res,
      SubmitResponse markCodec teamSyncStore "e1" ⟨"Alice", [⟨1, true⟩]⟩ 5 = (none, db1) ∧
      SubmitResponse markCodec db1 "e1" ⟨"Alice", [⟨2, true⟩]⟩ 6 = (none, db2) ∧
      GetEventResults markCodec db2 "e1" = .ok res ∧
      res.Respondents.countP (fun r => r.Name == "Alice") = 1 ∧
      (∀ r ∈ res.Respondents, r.Name = "Alice" →
        (r.Responses.map (fun x => (x.EventDateID, x.Available))).Perm
          ([(⟨2, true⟩ : ResponseRequest)].map (fun q => (q.EventDateID, q.Available)))) ∧
      (∀ d ∈ teamSyncStore.event_dates, d.event_id = "e1" →
        (∀ q ∈ [(⟨2, true⟩ : ResponseRequest)], q.EventDateID ≠ d.id) →
        (∀ r ∈ res.Respondents, r.Name = "Alice" → ∀ x ∈ r.Responses, x.EventDateID ≠ d.id) ∧
        ∃ sm, res.Summary d.id = some sm ∧
          sm.AvailableCount = (db2.respondents.filter (fun p =>
            p.event_id == "e1" && p.name != "Alice" && hasResponse db2 p.id d.id true)).length ∧
          sm.UnavailableCount = (db2.respondents.filter (fun p =>
            p.event_id == "e1" && p.name != "Alice" &&
              hasResponse db2 p.id d.id false)).length ∧
          "Alice" ∉ sm.AvailableNames) :=
  ⟨⟨by decide, by unfold Readable; decide, by decide, by decide,
      by unfold OneResponsePerDate; decide,
      by unfold DistinctDates; decide, by unfold DistinctDates; decide⟩,
    by decide,
    SubmitResponse_twice_replaces markCodec teamSyncStore "e1" "Alice" [⟨1, true⟩]
      [⟨2, true⟩] 5 6 (by decide) (by unfold Readable; decide) (by decide) (by decide)
      (by unfold OneResponsePerDate; decide)
      (by unfold DistinctDates; decide) (by unfold DistinctDates; decide)⟩

/-! ## failed submissions -/

theorem insertResponses_distinct (rid : Int) (R : List ResponseRequest) (v v' : Store)
    (h : insertResponses rid R v = .ok v') :
    DistinctDates R ∧
      ∀ row ∈ v.responses, row.respondent_id = rid →
        ∀ q ∈ R, q.EventDateID ≠ row.event_date_id := by
  induction R generalizing v with
  | nil => exact ⟨List.Pairwise.nil, fun _ _ _ q hq => by cases hq⟩
  | cons q rest ih =>
    simp only [insertResponses, insertResponse] at h
    split at h
    · cases h
    · rename_i v1 hins
      split at hins
      · cases hins
      · rename_i hfree
        simp only [Except.ok.injEq] at hins
        subst hins
        obtain ⟨hd, hrows⟩ := ih _ h
        simp only [Bool.not_eq_true, List.any_eq_false, Bool.and_eq_true, beq_iff_eq,
          not_and] at hfree
        refine ⟨List.Pairwise.cons ?_ hd, ?_⟩
        · intro p hp heq
          exact hrows ⟨nextID v.seq_responses (v.responses.map (fun x => x.id)), rid,
            q.EventDateID, q.Available⟩ (by simp) rfl p hp heq.symm
        · intro row hrow hrid p hp
          rcases List.mem_cons.mp hp with rfl | hp
          · exact fun heq => hfree row hrow hrid heq.symm
          · exact hrows row (by simp [hrow]) hrid p hp

/-- In the model a submission fails exactly when its response list names a date
option twice: the second insert violates `UNIQUE(respondent_id, event_date_id)`. -/
theorem SubmitResponse_error_iff (tc : TimeCodec) (db : Store) (eventID : String)
    (req : SubmitResponseRequest) (now : Time) :
    (∃ err, (SubmitResponse tc db eventID req now).1 = some err) ↔
      ¬ DistinctDates req.Responses := by
  constructor
  · rintro ⟨err, herr⟩ hR
    obtain ⟨db', _, _, hok, _⟩ := SubmitResponse_ok tc db eventID req.Name req.Responses now hR
    rw [show (⟨req.Name, req.Responses⟩ : SubmitResponseRequest) = req from rfl] at hok
    rw [hok] at herr
    cases herr
  · intro hR
    cases hres : (SubmitResponse tc db eventID req now).1 with
    | some err => exact ⟨err, rfl⟩
    | none =>
      exfalso
      apply hR
      simp only [SubmitResponse, resolveRespondent, insertRespondent, Begin] at hres
      split at hres
      · cases hres
      · rename_i v rid hresolve
        split at hres
        · cases hres
        · rename_i v' hins
          exact (insertResponses_distinct rid _ _ v' hins).1

/-- C3. A `SubmitResponse` call that returns an error leaves the database as it
was before the call: no prior response deleted, no new response or respondent
row kept. -/
theorem SubmitResponse_error_rolls_back (tc : TimeCodec) (db : Store) (eventID : String)
    (req : SubmitResponseRequest) (now : Time) (err : Err)
    (h : (SubmitResponse tc db eventID req now).1 = some err) :
    (SubmitResponse tc db eventID req now).2 = db := by
  unfold SubmitResponse at h ⊢
  simp only [Begin, Tx.Rollback] at h ⊢
  split
  · rfl
  · rename_i v rid hresolve
    rw [hresolve] at h
    simp only at h
    split
    · rfl
    · rename_i v' hins
      rw [hins] at h
      cases h

theorem SubmitResponse_error_rolls_back_witness :
    (SubmitResponse markCodec teamSyncStore "e1" ⟨"Alice", [⟨2, true⟩, ⟨2, false⟩]⟩ 9).1 =
        some (.wrap "failed to insert response" (.constraint
          "UNIQUE constraint failed: responses.respondent_id, responses.event_date_id")) ∧
      (SubmitResponse markCodec teamSyncStore "e1" ⟨"Alice", [⟨2, true⟩, ⟨2, false⟩]⟩ 9).2 =
        teamSyncStore :=
  ⟨by decide, SubmitResponse_error_rolls_back markCodec teamSyncStore "e1"
    ⟨"Alice", [⟨2, true⟩, ⟨2, false⟩]⟩ 9
    (.wrap "failed to insert response" (.constraint
      "UNIQUE constraint failed: responses.respondent_id, responses.event_date_id"))
    (by decide)⟩

/-! ## finalizing -/

/-- C4. When no row of `event_dates` has id `eventDateID` and event id `eventID`
(the date option belongs to another event or does not exist), `FinalizeEvent`
returns the error "event date does not belong to this event" and the database,
so every finalized reference, is unchanged. -/
theorem FinalizeEvent_foreign_date (db : Store) (eventID : String) (eventDateID : Int)
    (h : ∀ row ∈ db.event_dates, ¬(row.id = eventDateID ∧ row.event_id = eventID)) :
    FinalizeEvent db eventID eventDateID =
      (some (.msg "event date does not belong to this event"), db) := by
  have hcount : countEventDate db eventDateID eventID = 0 := by
    unfold countEventDate
    rw [List.length_eq_zero, List.filter_eq_nil_iff]
    intro row hrow
    simpa using h row hrow
  simp [FinalizeEvent, hcount]

theorem FinalizeEvent_foreign_date_witness :
    (∀ row ∈ twoEvents.event_dates, ¬(row.id = 3 ∧ row.event_id = "e1")) ∧
      (∃ row ∈ twoEvents.event_dates, row.id = 3 ∧ row.event_id = "e2") ∧
      FinalizeEvent twoEvents "e1" 3 =
        (some (.msg "event date does not belong to this event"), twoEvents) :=
  ⟨by decide, by decide, FinalizeEvent_foreign_date twoEvents "e1" 3 (by decide)⟩

/-! ## validation in the handlers -/

/-- C7. The `createEvent` handler answers 400 and leaves the database unchanged
when the request has an empty name or an empty list of dates: `CreateEvent` is
not called and no event row is persisted. -/
theorem createEvent_rejects_empty (tc : TimeCodec) (db : Store) (req : CreateEventRequest)
    (eventID : String) (now returnedAt : Time)
    (h : req.Name = "" ∨ req.Dates = []) :
    (EventHandler.createEvent tc db (some req) eventID now returnedAt).1.status = 400 ∧
      (EventHandler.createEvent tc db (some req) eventID now returnedAt).2 = db := by
  unfold EventHandler.createEvent
  by_cases hn : req.Name = ""
  · simp [hn]
  · rcases h with h | h
    · exact absurd h hn
    · simp [hn, h]

theorem createEvent_rejects_empty_witness :
    ((⟨"Team Sync", []⟩ : CreateEventRequest).Name = "" ∨
        (⟨"Team Sync", []⟩ : CreateEventRequest).Dates = []) ∧
      (EventHandler.createEvent markCodec teamSyncStore (some ⟨"Team Sync", []⟩)
        "e9" 8 9).1.status = 400 ∧
      (EventHandler.createEvent markCodec teamSyncStore (some ⟨"Team Sync", []⟩)
        "e9" 8 9).2 = teamSyncStore :=
  ⟨Or.inr rfl, createEvent_rejects_empty markCodec teamSyncStore ⟨"Team Sync", []⟩ "e9" 8 9
    (Or.inr rfl)⟩

/-- The database function itself does not validate: called directly with an
empty list of dates and an unused id it stores an event row without dates. -/
theorem CreateEvent_accepts_empty_dates (tc : TimeCodec) (db : Store) (name eventID : String)
    (now returnedAt : Time) (hfresh : ∀ e ∈ db.events, e.id ≠ eventID) :
    CreateEvent tc db ⟨name, []⟩ eventID now returnedAt =
      (.ok ⟨eventID, name, returnedAt, none, []⟩,
        { db with events := db.events ++ [⟨eventID, name, tc.format now, none⟩] }) := by
  have hany : db.events.any (fun r => r.id == eventID) = false := by
    rw [List.any_eq_false]
    intro e he
    simpa using hfresh e he
  simp [CreateEvent, insertEvent, Begin, hany, insertEventDates, Tx.Commit]

/-! ## events that do not exist -/

/-- C8. When no event row has the id, `GetEvent` and `GetEventResults` both return
`sql.ErrNoRows` itself and no result, and both handlers answer 404, whatever the
other tables hold. -/
theorem GetEvent_not_found (tc : TimeCodec) (db : Store) (eventID : String)
    (h : ∀ e ∈ db.events, e.id ≠ eventID) :
    GetEvent tc db eventID = .error .errNoRows ∧
      GetEventResults tc db eventID = .error .errNoRows ∧
      (EventHandler.getEvent tc db eventID).status = 404 ∧
      (EventHandler.getEventResults tc db eventID).status = 404 := by
  have hsel : selectEvent db eventID = none := by
    unfold selectEvent
    rw [List.find?_eq_none]
    intro e he
    simpa using h e he
  have hget : GetEvent tc db eventID = .error .errNoRows := by
    simp [GetEvent, hsel]
  refine ⟨hget, ?_, ?_, ?_⟩
  · simp [GetEventResults, hget]
  · simp [EventHandler.getEvent, hget]
  · simp [EventHandler.getEventResults, GetEventResults, hget]

theorem GetEvent_not_found_witness :
    (∀ e ∈ ghostStore.events, e.id ≠ "ghost") ∧
      (∃ p ∈ ghostStore.respondents, p.event_id = "ghost") ∧
      GetEvent markCodec ghostStore "ghost" = .error .errNoRows ∧
      GetEventResults markCodec ghostStore "ghost" = .error .errNoRows ∧
      (EventHandler.getEvent markCodec ghostStore "ghost").status = 404 ∧
      (EventHandler.getEventResults markCodec ghostStore "ghost").status = 404 :=
  ⟨by decide, by decide, GetEvent_not_found markCodec ghostStore "ghost" (by decide)⟩


/-- The `finalizeEvent` handler answers 500, not 400, when the ownership check
fails: date option 3 belongs to event "e2", the request names event "e1". -/
theorem finalizeEvent_ownership_not_400 :
    countEventDate twoEvents 3 "e1" = 0 ∧
      (EventHandler.finalizeEvent twoEvents "e1" (some ⟨3⟩)).1.status = 500 ∧
      ¬ (EventHandler.finalizeEvent twoEvents "e1" (some ⟨3⟩)).1.status = 400 := by
  decide

/-- C9, amended. The `finalizeEvent` handler answers 400 exactly when the body
does not decode or its `event_date_id` is missing or zero; 500 exactly when
`FinalizeEvent` is called and fails, which is when the date option does not
belong to the event; and 200 exactly when the date option belongs to the
event. -/
theorem finalizeEvent_status (db : Store) (eventID : String) (body : Option FinalizeRequest) :
    ((EventHandler.finalizeEvent db eventID body).1.status = 400 ↔
        (body = none ∨ ∃ req, body = some req ∧ req.EventDateID = 0)) ∧
      ((EventHandler.finalizeEvent db eventID body).1.status = 500 ↔
        ∃ req, body = some req ∧ req.EventDateID ≠ 0 ∧
          countEventDate db req.EventDateID eventID = 0) ∧
      ((EventHandler.finalizeEvent db eventID body).1.status = 200 ↔
        ∃ req, body = some req ∧ req.EventDateID ≠ 0 ∧
          countEventDate db req.EventDateID eventID ≠ 0) := by
  cases body with
  | none => simp [EventHandler.finalizeEvent]
  | some req =>
    by_cases hz : req.EventDateID = 0
    · simp [EventHandler.finalizeEvent, hz]
    · by_cases hc : countEventDate db req.EventDateID eventID = 0
      · simp [EventHandler.finalizeEvent, FinalizeEvent, hz, hc]
      · simp [EventHandler.finalizeEvent, FinalizeEvent, hz, hc]

/-! ## creating events -/

theorem le_foldl_max (ids : List Int) (seq : Int) :
    seq ≤ ids.foldl max seq ∧ ∀ i ∈ ids, i ≤ ids.foldl max seq := by
  induction ids generalizing seq with
  | nil => simp
  | cons a rest ih =>
    obtain ⟨h1, h2⟩ := ih (max seq a)
    refine ⟨le_trans (le_max_left _ _) h1, ?_⟩
    intro i hi
    rcases List.mem_cons.mp hi with rfl | hi
    · exact le_trans (le_max_right _ _) h1
    · exact h2 i hi

theorem lt_nextID_of_mem (seq : Int) (ids : List Int) (i : Int) (hi : i ∈ ids) :
    i < nextID seq ids := by
  have := (le_foldl_max ids seq).2 i hi
  unfold nextID
  omega

/-- What the loop of `CreateEvent` does to the view and to the slice. -/
theorem insertEventDates_spec (eventID : String) (reqs : List CreateDateRequest) (v : Store)
    (acc : List EventDate) :
    ∃ (new : List EventDate) (seq : Int),
      insertEventDates eventID reqs v acc =
        .ok ({ v with
                event_dates := v.event_dates ++
                  new.map (fun d => ⟨d.ID, d.EventID, d.Date, d.StartTime, d.EndTime⟩),
                seq_event_dates := seq },
             acc ++ new) ∧
      new.map (fun d => (d.EventID, d.Date, d.StartTime, d.EndTime)) =
        reqs.map (fun q => (eventID, q.Date, q.StartTime, q.EndTime)) ∧
      (new.map (·.ID)).Pairwise (· < ·) ∧
      ∀ d ∈ new, ∀ row ∈ v.event_dates, row.id < d.ID := by
  induction reqs generalizing v acc with
  | nil => exact ⟨[], v.seq_event_dates, by simp [insertEventDates], rfl, List.Pairwise.nil,
      fun d hd => by cases hd⟩
  | cons q rest ih =>
    obtain ⟨new, seq, hok, hfields, hpair, hlt⟩ := ih
      { v with
        event_dates := v.event_dates ++
          [⟨nextID v.seq_event_dates (v.event_dates.map (·.id)), eventID, q.Date, q.StartTime,
            q.EndTime⟩],
        seq_event_dates := nextID v.seq_event_dates (v.event_dates.map (·.id)) }
      (acc ++ [⟨nextID v.seq_event_dates (v.event_dates.map (·.id)), eventID, q.Date,
        q.StartTime, q.EndTime⟩])
    refine ⟨⟨nextID v.seq_event_dates (v.event_dates.map (fun r : EventDateRow => r.id)),
      eventID, q.Date, q.StartTime, q.EndTime⟩ :: new, seq, ?_, ?_, ?_, ?_⟩
    · simp only [insertEventDates, insertEventDate]
      rw [hok]
      simp
    · simp [hfields]
    · rw [List.map_cons, List.pairwise_cons]
      refine ⟨?_, hpair⟩
      intro i hi
      rw [List.mem_map] at hi
      obtain ⟨d, hd, rfl⟩ := hi
      exact hlt d hd ⟨nextID v.seq_event_dates (v.event_dates.map (fun r => r.id)), eventID,
        q.Date, q.StartTime, q.EndTime⟩ (by simp)
    · intro d hd row hrow
      rcases List.mem_cons.mp hd with rfl | hd
      · exact lt_nextID_of_mem _ _ _ (List.mem_map_of_mem _ hrow)
      · exact hlt d hd row (by simp [hrow])

theorem CreateEvent_fresh (tc : TimeCodec) (db : Store) (req : CreateEventRequest)
    (eventID : String) (now returnedAt : Time) (hfresh : ∀ e ∈ db.events, e.id ≠ eventID) :
    ∃ (new : List EventDate) (seq : Int),
      CreateEvent tc db req eventID now returnedAt =
        (.ok ⟨eventID, req.Name, returnedAt, none, new⟩,
          { db with
            events := db.events ++ [⟨eventID, req.Name, tc.format now, none⟩],
            event_dates := db.event_dates ++ new.map EventDate.toRow,
            seq_event_dates := seq }) ∧
      new.map (fun d => (d.EventID, d.Date, d.StartTime, d.EndTime)) =
        req.Dates.map (fun q => (eventID, q.Date, q.StartTime, q.EndTime)) ∧
      (new.map (·.ID)).Pairwise (· < ·) ∧
      ∀ d ∈ new, ∀ row ∈ db.event_dates, row.id < d.ID := by
  have hany : db.events.any (fun r => r.id == eventID) = false := by
    rw [List.any_eq_false]
    intro e he
    simpa using hfresh e he
  obtain ⟨new, seq, hok, hfields, hpair, hlt⟩ := insertEventDates_spec eventID req.Dates
    { db with events := db.events ++ [⟨eventID, req.Name, tc.format now, none⟩] } []
  refine ⟨new, seq, ?_, hfields, hpair, hlt⟩
  simp only [CreateEvent, insertEvent, Begin, hany, Bool.false_eq_true, if_false, hok,
    Tx.Commit, List.nil_append]
  rfl

theorem CreateEvent_taken (tc : TimeCodec) (db : Store) (req : CreateEventRequest)
    (eventID : String) (now returnedAt : Time) (htaken : ∃ e ∈ db.events, e.id = eventID) :
    CreateEvent tc db req eventID now returnedAt =
      (.error (.wrap "failed to insert event"
        (.constraint "UNIQUE constraint failed: events.id")), db) := by
  have hany : db.events.any (fun r => r.id == eventID) = true := by
    rw [List.any_eq_true]
    obtain ⟨e, he, hid⟩ := htaken
    exact ⟨e, he, by simpa using hid⟩
  simp [CreateEvent, insertEvent, Begin, hany, Tx.Rollback]

theorem CreateEvent_ok_fresh (tc : TimeCodec) (db db' : Store) (req : CreateEventRequest)
    (eventID : String) (now returnedAt : Time) (ev : Event)
    (h : CreateEvent tc db req eventID now returnedAt = (.ok ev, db')) :
    ∀ e ∈ db.events, e.id ≠ eventID := by
  intro e he hid
  rw [CreateEvent_taken tc db req eventID now returnedAt ⟨e, he, hid⟩] at h
  cases h

/-- C5. A successful `CreateEvent` returns an event with the new id and the given
name and exactly as many date options as the request, the i-th with the date,
start time and end time of the i-th input and the new event's id; their ids
are pairwise distinct, differ from every id already in `event_dates`, and are
the ids of the rows appended to that table. -/
theorem CreateEvent_result (tc : TimeCodec) (db db' : Store) (req : CreateEventRequest)
    (eventID : String) (now returnedAt : Time) (ev : Event)
    (h : CreateEvent tc db req eventID now returnedAt = (.ok ev, db')) :
    ev.ID = eventID ∧ ev.Name = req.Name ∧
      ev.Dates.length = req.Dates.length ∧
      ev.Dates.map (fun d => (d.EventID, d.Date, d.StartTime, d.EndTime)) =
        req.Dates.map (fun q => (eventID, q.Date, q.StartTime, q.EndTime)) ∧
      (ev.Dates.map (·.ID)).Nodup ∧
      (∀ d ∈ ev.Dates, ∀ row ∈ db.event_dates, row.id ≠ d.ID) ∧
      db'.event_dates = db.event_dates ++ ev.Dates.map EventDate.toRow := by
  obtain ⟨new, seq, hok, hfields, hpair, hlt⟩ := CreateEvent_fresh tc db req eventID now
    returnedAt (CreateEvent_ok_fresh tc db db' req eventID now returnedAt ev h)
  rw [hok] at h
  simp only [Prod.mk.injEq, Except.ok.injEq] at h
  obtain ⟨hev, hdb⟩ := h
  subst hev hdb
  refine ⟨rfl, rfl, ?_, hfields, ?_, ?_, rfl⟩
  · simpa using congrArg List.length hfields
  · exact hpair.imp (fun h => ne_of_lt h)
  · intro d hd row hrow
    exact ne_of_lt (hlt d hd row hrow)

theorem CreateEvent_result_witness :
    CreateEvent markCodec teamSyncStore retro "e2" 5 6 = (.ok retroEvent, retroStore) ∧
      (retroEvent.ID = "e2" ∧ retroEvent.Name = retro.Name ∧
        retroEvent.Dates.length = retro.Dates.length ∧
        retroEvent.Dates.map (fun d => (d.EventID, d.Date, d.StartTime, d.EndTime)) =
          retro.Dates.map (fun q => ("e2", q.Date, q.StartTime, q.EndTime)) ∧
        (retroEvent.Dates.map (·.ID)).Nodup ∧
        (∀ d ∈ retroEvent.Dates, ∀ row ∈ teamSyncStore.event_dates, row.id ≠ d.ID) ∧
        retroStore.event_dates =
          teamSyncStore.event_dates ++ retroEvent.Dates.map EventDate.toRow) :=
  ⟨rfl, CreateEvent_result markCodec teamSyncStore retroStore retro "e2" 5 6 retroEvent rfl⟩

/-- After a successful `CreateEvent` on a database whose date options all refer
to existing events, with a timestamp that reads back, `GetEvent` of the new id
succeeds and returns the same id and name and no finalized date.  Its date
options are the rows of the created ones, in the order of the stored values of
(date, start_time), each as the driver scans it. -/
theorem GetEvent_after_CreateEvent_rows (tc : TimeCodec) (db db' : Store)
    (req : CreateEventRequest) (eventID : String) (now returnedAt : Time) (ev : Event)
    (h : CreateEvent tc db req eventID now returnedAt = (.ok ev, db'))
    (hdates : DatesHaveEvents db)
    (hfmt : (parseCreatedAt tc (tc.format now)).isSome = true) :
    ∃ (g : Event) (rows : List EventDateRow), GetEvent tc db' ev.ID = .ok g ∧
      g.ID = ev.ID ∧ g.Name = ev.Name ∧ g.FinalizedDateID = none ∧
      rows.Perm (ev.Dates.map EventDate.toRow) ∧ rows.Sorted dateOrder ∧
      g.Dates = rows.map (scanEventDate tc) := by
  have hfresh := CreateEvent_ok_fresh tc db db' req eventID now returnedAt ev h
  obtain ⟨new, seq, hok, hfields, _, _⟩ := CreateEvent_fresh tc db req eventID now
    returnedAt hfresh
  rw [hok] at h
  simp only [Prod.mk.injEq, Except.ok.injEq] at h
  obtain ⟨hev, hdb⟩ := h
  subst hev hdb
  obtain ⟨t, ht⟩ := Option.isSome_iff_exists.mp hfmt
  have hold : db.events.find? (fun r => r.id == eventID) = none := by
    rw [List.find?_eq_none]
    intro e he
    simpa using hfresh e he
  have hsel : selectEvent
      { db with
        events := db.events ++ [⟨eventID, req.Name, tc.format now, none⟩],
        event_dates := db.event_dates ++ new.map EventDate.toRow,
        seq_event_dates := seq } eventID =
      some ⟨eventID, req.Name, tc.format now, none⟩ := by
    simp [selectEvent, List.find?_append, hold]
  have hnew : ∀ d ∈ new, d.EventID = eventID := by
    intro d hd
    have : (d.EventID, d.Date, d.StartTime, d.EndTime) ∈
        new.map (fun d => (d.EventID, d.Date, d.StartTime, d.EndTime)) :=
      List.mem_map_of_mem _ hd
    rw [hfields, List.mem_map] at this
    obtain ⟨q, _, hq⟩ := this
    simp only [Prod.mk.injEq] at hq
    exact hq.1.symm
  have hfilter : (db.event_dates ++ new.map EventDate.toRow).filter
      (fun r => r.event_id == eventID) = new.map EventDate.toRow := by
    rw [List.filter_append]
    have h1 : db.event_dates.filter (fun r => r.event_id == eventID) = [] := by
      rw [List.filter_eq_nil_iff]
      intro d hd hde
      obtain ⟨e, he, hid⟩ := hdates d hd
      exact hfresh e he (hid.trans (by simpa using hde))
    have h2 : (new.map EventDate.toRow).filter (fun r => r.event_id == eventID) =
        new.map EventDate.toRow := by
      rw [List.filter_eq_self]
      intro r hr
      rw [List.mem_map] at hr
      obtain ⟨d, hd, rfl⟩ := hr
      simpa [EventDate.toRow] using hnew d hd
    rw [h1, h2, List.nil_append]
  refine ⟨⟨eventID, req.Name, t, none,
    ((new.map EventDate.toRow).insertionSort dateOrder).map (scanEventDate tc)⟩,
    (new.map EventDate.toRow).insertionSort dateOrder, ?_, rfl, rfl, rfl,
    List.perm_insertionSort dateOrder _, List.sorted_insertionSort dateOrder _, rfl⟩
  simp only [GetEvent, hsel, ht, selectEventDates, hfilter]

/-- C6. On the "Team Sync" database, `CreateEvent` of "Retro" with the one date
option 2024-02-01 from 10:00 to 11:00 succeeds and returns that date option
with id 3 and the date "2024-02-01".  `GetEvent` of the new id right afterwards
succeeds with the same id and name, no finalized date and one date option of
id 3, whose date is "2024-02-01T00:00:00Z": the `DATE` column is read back
through the driver's time value.  The date options returned are therefore not
a permutation of the created ones. -/
theorem GetEvent_after_CreateEvent_rewrites_date :
    ∃ (ev g : Event) (db' : Store),
      CreateEvent markCodec teamSyncStore ⟨"Retro", [⟨"2024-02-01", "10:00", "11:00"⟩]⟩
        "e2" 5 6 = (.ok ev, db') ∧
      ev.Dates = [⟨3, "e2", "2024-02-01", "10:00", "11:00"⟩] ∧
      GetEvent markCodec db' ev.ID = .ok g ∧
      g.ID = ev.ID ∧ g.Name = ev.Name ∧ g.FinalizedDateID = none ∧
      g.Dates = [⟨3, "e2", "2024-02-01T00:00:00Z", "10:00", "11:00"⟩] ∧
      ¬ g.Dates.Perm ev.Dates :=
  ⟨⟨"e2", "Retro", 6, none, [⟨3, "e2", "2024-02-01", "10:00", "11:00"⟩]⟩,
    ⟨"e2", "Retro", 5, none, [⟨3, "e2", "2024-02-01T00:00:00Z", "10:00", "11:00"⟩]⟩,
    twoEvents, rfl, rfl, rfl, rfl, rfl, rfl, rfl, by decide⟩

/-- Start times written as "10", "9" and "0900" are stored as the integers 10,
9 and 900 (the column is declared `TIME`): `GetEvent` lists them in the order
9, 10, 900 and returns "0900" as "900", while as text "0900" comes before "10"
and "10" before "9". -/
theorem GetEvent_after_CreateEvent_number_times :
    (GetEvent markCodec
        (CreateEvent markCodec teamSyncStore
          ⟨"Retro", [⟨"2024-02-01", "10", "11"⟩, ⟨"2024-02-01", "9", "10"⟩,
            ⟨"2024-02-01", "0900", "1000"⟩]⟩ "e2" 5 6).2 "e2").toOption.map
        (fun g => g.Dates.map (fun d => (d.ID, d.StartTime, d.EndTime))) =
      some [(4, "9", "10"), (3, "10", "11"), (5, "900", "1000")] ∧
    textLE "0900" "10" = true ∧ textLE "10" "9" = true ∧ textLE "9" "10" = false := by
  decide

/-! ## what each operation leaves alone -/

theorem insertResponses_frame (rid : Int) (R : List ResponseRequest) (v v' : Store)
    (h : insertResponses rid R v = .ok v') :
    v'.events = v.events ∧ v'.event_dates = v.event_dates ∧ v'.respondents = v.respondents := by
  induction R generalizing v with
  | nil =>
    simp only [insertResponses, Except.ok.injEq] at h
    subst h
    exact ⟨rfl, rfl, rfl⟩
  | cons q rest ih =>
    simp only [insertResponses, insertResponse] at h
    split at h
    · cases h
    · rename_i v1 hins
      split at hins
      · cases hins
      · simp only [Except.ok.injEq] at hins
        subst hins
        obtain ⟨h1, h2, h3⟩ := ih
          { v with
            responses := v.responses ++
              [⟨nextID v.seq_responses (v.responses.map (fun x => x.id)), rid, q.EventDateID,
                q.Available⟩],
            seq_responses := nextID v.seq_responses (v.responses.map (fun x => x.id)) } h
        exact ⟨h1, h2, h3⟩

theorem SubmitResponse_frame (tc : TimeCodec) (db : Store) (eventID : String)
    (req : SubmitResponseRequest) (now : Time) :
    (SubmitResponse tc db eventID req now).2.events = db.events ∧
      (SubmitResponse tc db eventID req now).2.event_dates = db.event_dates := by
  unfold SubmitResponse
  simp only [Begin, Tx.Rollback, Tx.Commit]
  split
  · exact ⟨rfl, rfl⟩
  · rename_i v rid hresolve
    have hv : v.events = db.events ∧ v.event_dates = db.event_dates := by
      simp only [resolveRespondent, insertRespondent] at hresolve
      split at hresolve
      · simp only [Except.ok.injEq, Prod.mk.injEq] at hresolve
        rw [← hresolve.1]
        exact ⟨rfl, rfl⟩
      · simp only [Except.ok.injEq, Prod.mk.injEq] at hresolve
        rw [← hresolve.1]
        exact ⟨rfl, rfl⟩
    split
    · exact ⟨rfl, rfl⟩
    · rename_i v' hins
      obtain ⟨he, hd, _⟩ := insertResponses_frame rid _ _ v' hins
      exact ⟨he.trans hv.1, hd.trans hv.2⟩

theorem CreateEvent_cases (tc : TimeCodec) (db : Store) (req : CreateEventRequest)
    (eventID : String) (now returnedAt : Time) :
    (∃ err, CreateEvent tc db req eventID now returnedAt = (.error err, db)) ∨
      ∃ (new : List EventDate) (seq : Int),
        CreateEvent tc db req eventID now returnedAt =
          (.ok ⟨eventID, req.Name, returnedAt, none, new⟩,
            { db with
              events := db.events ++ [⟨eventID, req.Name, tc.format now, none⟩],
              event_dates := db.event_dates ++ new.map EventDate.toRow,
              seq_event_dates := seq }) ∧
        (∀ e ∈ db.events, e.id ≠ eventID) ∧
        ∀ d ∈ new, d.EventID = eventID := by
  by_cases htaken : ∃ e ∈ db.events, e.id = eventID
  · exact Or.inl ⟨_, CreateEvent_taken tc db req eventID now returnedAt htaken⟩
  · have hfresh : ∀ e ∈ db.events, e.id ≠ eventID := fun e he hid => htaken ⟨e, he, hid⟩
    obtain ⟨new, seq, hok, hfields, _, _⟩ :=
      CreateEvent_fresh tc db req eventID now returnedAt hfresh
    refine Or.inr ⟨new, seq, hok, hfresh, ?_⟩
    intro d hd
    have : (d.EventID, d.Date, d.StartTime, d.EndTime) ∈
        new.map (fun d => (d.EventID, d.Date, d.StartTime, d.EndTime)) :=
      List.mem_map_of_mem _ hd
    rw [hfields, List.mem_map] at this
    obtain ⟨q, _, hq⟩ := this
    simp only [Prod.mk.injEq] at hq
    exact hq.1.symm

theorem FinalizeEvent_owned (db : Store) (eventID : String) (eventDateID : Int)
    (h : ∃ row ∈ db.event_dates, row.id = eventDateID ∧ row.event_id = eventID) :
    FinalizeEvent db eventID eventDateID = (none, updateFinalized db eventDateID eventID) := by
  have hcount : countEventDate db eventDateID eventID ≠ 0 := by
    unfold countEventDate
    obtain ⟨row, hrow, hid, he⟩ := h
    have : row ∈ db.event_dates.filter (fun r => r.id == eventDateID && r.event_id == eventID) :=
      List.mem_filter.mpr ⟨hrow, by simp [hid, he]⟩
    exact Nat.ne_of_gt (List.length_pos_of_mem this)
  simp [FinalizeEvent, hcount]

theorem FinalizeEvent_cases (db : Store) (eventID : String) (eventDateID : Int) :
    FinalizeEvent db eventID eventDateID =
        (some (.msg "event date does not belong to this event"), db) ∨
      ((∃ row ∈ db.event_dates, row.id = eventDateID ∧ row.event_id = eventID) ∧
        FinalizeEvent db eventID eventDateID =
          (none, updateFinalized db eventDateID eventID)) := by
  by_cases h : ∃ row ∈ db.event_dates, row.id = eventDateID ∧ row.event_id = eventID
  · exact Or.inr ⟨h, FinalizeEvent_owned db eventID eventDateID h⟩
  · left
    have hcount : countEventDate db eventDateID eventID = 0 := by
      unfold countEventDate
      rw [List.length_eq_zero, List.filter_eq_nil_iff]
      intro row hrow hcon
      simp only [Bool.and_eq_true, beq_iff_eq] at hcon
      exact h ⟨row, hrow, hcon⟩
    simp [FinalizeEvent, hcount]

/-! ## the finalized reference -/

theorem FinalizedOwned_updateFinalized (db : Store) (eventID : String) (eventDateID : Int)
    (hinv : FinalizedOwned db)
    (h : ∃ row ∈ db.event_dates, row.id = eventDateID ∧ row.event_id = eventID) :
    FinalizedOwned (updateFinalized db eventDateID eventID) := by
  intro e he d hd
  simp only [updateFinalized, List.mem_map] at he
  obtain ⟨e0, he0, rfl⟩ := he
  by_cases hid : e0.id = eventID
  · simp only [hid, beq_self_eq_true, if_true, Option.some.injEq] at hd ⊢
    subst hd
    obtain ⟨row, hrow, hrid, hre⟩ := h
    exact ⟨row, hrow, hrid, hre⟩
  · have hne : (e0.id == eventID) = false := by simpa using hid
    simp only [hne, Bool.false_eq_true, if_false] at hd ⊢
    exact hinv e0 he0 d hd

theorem Reachable.finalizedOwned {tc : TimeCodec} {db : Store} (h : Reachable tc db) :
    FinalizedOwned db := by
  induction h with
  | empty => intro e he; cases he
  | @createEvent db req eventID now returnedAt _ ih =>
    rcases CreateEvent_cases tc db req eventID now returnedAt with ⟨err, herr⟩ | ⟨new, seq, hok, _, _⟩
    · rw [herr]; exact ih
    · rw [hok]
      intro e he d hd
      simp only [List.mem_append, List.mem_singleton] at he
      rcases he with he | rfl
      · obtain ⟨row, hrow, h1, h2⟩ := ih e he d hd
        exact ⟨row, by simp [hrow], h1, h2⟩
      · cases hd
  | @submitResponse db eventID req now _ ih =>
    obtain ⟨he, hd⟩ := SubmitResponse_frame tc db eventID req now
    unfold FinalizedOwned
    rw [he, hd]
    exact ih
  | @finalizeEvent db eventID eventDateID _ ih =>
    rcases FinalizeEvent_cases db eventID eventDateID with hfail | ⟨hown, hok⟩
    · rw [hfail]; exact ih
    · rw [hok]; exact FinalizedOwned_updateFinalized db eventID eventDateID ih hown

/-- C10. In every database reachable from the empty one, every finalized
reference is absent or the id of a date option of that same event.  From such a
database: a created event starts without a reference and leaves the other rows
as they were; a failed `CreateEvent`, any `SubmitResponse` and a failed
`FinalizeEvent` leave the events table unchanged; a successful
`FinalizeEvent e d` requires `d` to belong to `e`, sets the reference of `e` to
`d` and changes no other event; and it succeeds for every date option of `e`,
whatever the current reference, so re-finalizing is allowed. -/
theorem finalized_reference_state_machine (tc : TimeCodec) (db : Store)
    (h : Reachable tc db) :
    FinalizedOwned db ∧
      (∀ req eventID now returnedAt ev db',
        CreateEvent tc db req eventID now returnedAt = (.ok ev, db') →
          ev.FinalizedDateID = none ∧
            db'.events = db.events ++ [⟨eventID, req.Name, tc.format now, none⟩]) ∧
      (∀ req eventID now returnedAt err db',
        CreateEvent tc db req eventID now returnedAt = (.error err, db') →
          db'.events = db.events) ∧
      (∀ eventID req now, (SubmitResponse tc db eventID req now).2.events = db.events) ∧
      (∀ eventID eventDateID err db',
        FinalizeEvent db eventID eventDateID = (some err, db') → db'.events = db.events) ∧
      (∀ eventID eventDateID db',
        FinalizeEvent db eventID eventDateID = (none, db') →
          (∃ row ∈ db.event_dates, row.id = eventDateID ∧ row.event_id = eventID) ∧
            db'.events = db.events.map (fun e =>
              if e.id = eventID then { e with finalized_date_id := some eventDateID } else e)) ∧
      (∀ eventID eventDateID,
        (∃ row ∈ db.event_dates, row.id = eventDateID ∧ row.event_id = eventID) →
          (FinalizeEvent db eventID eventDateID).1 = none) := by
  refine ⟨h.finalizedOwned, ?_, ?_, ?_, ?_, ?_, ?_⟩
  · intro req eventID now returnedAt ev db' hc
    rcases CreateEvent_cases tc db req eventID now returnedAt with ⟨err, herr⟩ | ⟨new, seq, hok, _, _⟩
    · rw [herr] at hc; cases hc
    · rw [hok] at hc
      simp only [Prod.mk.injEq, Except.ok.injEq] at hc
      obtain ⟨hev, hdb⟩ := hc
      subst hev hdb
      exact ⟨rfl, rfl⟩
  · intro req eventID now returnedAt err db' hc
    rcases CreateEvent_cases tc db req eventID now returnedAt with ⟨err', herr⟩ | ⟨new, seq, hok, _, _⟩
    · rw [herr] at hc
      simp only [Prod.mk.injEq] at hc
      rw [← hc.2]
    · rw [hok] at hc; cases hc
  · intro eventID req now
    exact (SubmitResponse_frame tc db eventID req now).1
  · intro eventID eventDateID err db' hf
    rcases FinalizeEvent_cases db eventID eventDateID with hfail | ⟨_, hok⟩
    · rw [hfail] at hf
      simp only [Prod.mk.injEq] at hf
      rw [← hf.2]
    · rw [hok] at hf; cases hf
  · intro eventID eventDateID db' hf
    rcases FinalizeEvent_cases db eventID eventDateID with hfail | ⟨hown, hok⟩
    · rw [hfail] at hf; cases hf
    · rw [hok] at hf
      simp only [Prod.mk.injEq, true_and] at hf
      subst hf
      refine ⟨hown, ?_⟩
      simp only [updateFinalized]
      apply List.map_congr_left
      intro e _
      by_cases hid : e.id = eventID <;> simp [hid]
  · intro eventID eventDateID hown
    rw [FinalizeEvent_owned db eventID eventDateID hown]

theorem finalized_reference_state_machine_witness :
    Reachable markCodec finalizedStore ∧ FinalizedOwned finalizedStore ∧
      (selectEvent finalizedStore "e1").map (·.finalized_date_id) = some (some 1) :=
  have hreach : Reachable markCodec finalizedStore :=
    Reachable.finalizeEvent "e1" 1 (Reachable.finalizeEvent "e1" 2
      (Reachable.submitResponse "e1" ⟨"Bob", [⟨1, true⟩]⟩ 4
        (Reachable.submitResponse "e1" ⟨"Alice", [⟨1, true⟩, ⟨2, false⟩]⟩ 3
          (Reachable.createEvent teamSync "e1" 1 2 Reachable.empty))))
  ⟨hreach, (finalized_reference_state_machine markCodec finalizedStore hreach).1, by decide⟩

/-! ## what holds in every reachable database

The properties that the theorems above assume of a database are kept by the
three writing operations, so they hold whenever the database was only ever
written by this program. -/

theorem SubmitResponse_cases (tc : TimeCodec) (db : Store) (eventID : String)
    (req : SubmitResponseRequest) (now : Time) :
    (SubmitResponse tc db eventID req now).2 = db ∨ DistinctDates req.Responses := by
  unfold SubmitResponse
  simp only [Begin, Tx.Rollback, Tx.Commit]
  split
  · exact Or.inl rfl
  · rename_i v rid hresolve
    split
    · exact Or.inl rfl
    · rename_i v' hins
      exact Or.inr (insertResponses_distinct rid _ _ v' hins).1

theorem Reachable.datesHaveEvents {tc : TimeCodec} {db : Store} (h : Reachable tc db) :
    DatesHaveEvents db := by
  induction h with
  | empty => intro d hd; cases hd
  | @createEvent db req eventID now returnedAt _ ih =>
    rcases CreateEvent_cases tc db req eventID now returnedAt with
      ⟨err, herr⟩ | ⟨new, seq, hok, _, hnew⟩
    · rw [herr]; exact ih
    · rw [hok]
      intro d hd
      simp only [List.mem_append, List.mem_map] at hd
      rcases hd with hd | ⟨d0, hd0, rfl⟩
      · obtain ⟨e, he, hid⟩ := ih d hd
        exact ⟨e, by simp [he], hid⟩
      · exact ⟨⟨eventID, req.Name, tc.format now, none⟩, by simp,
          by simp [EventDate.toRow, hnew d0 hd0]⟩
  | @submitResponse db eventID req now _ ih =>
    obtain ⟨he, hd⟩ := SubmitResponse_frame tc db eventID req now
    unfold DatesHaveEvents
    rw [he, hd]
    exact ih
  | @finalizeEvent db eventID eventDateID _ ih =>
    rcases FinalizeEvent_cases db eventID eventDateID with hfail | ⟨_, hok⟩
    · rw [hfail]; exact ih
    · rw [hok]
      intro d hd
      obtain ⟨e, he, hid⟩ := ih d hd
      refine ⟨if e.id == eventID then { e with finalized_date_id := some eventDateID } else e,
        ?_, ?_⟩
      · simp only [updateFinalized, List.mem_map]
        exact ⟨e, he, rfl⟩
      · split <;> exact hid

theorem Reachable.respondentsUnique {tc : TimeCodec} {db : Store} (h : Reachable tc db) :
    RespondentsUnique db := by
  induction h with
  | empty => intro _ _; simp [Store.empty]
  | @createEvent db req eventID now returnedAt _ ih =>
    rcases CreateEvent_cases tc db req eventID now returnedAt with
      ⟨err, herr⟩ | ⟨new, seq, hok, _, _⟩
    · rw [herr]; exact ih
    · rw [hok]; exact ih
  | @submitResponse db eventID req now _ ih =>
    rcases SubmitResponse_cases tc db eventID req now with hsame | hR
    · rw [hsame]; exact ih
    · obtain ⟨db', rid, new, hok, _, _, hp, _, _⟩ :=
        SubmitResponse_ok tc db eventID req.Name req.Responses now hR
      rw [show (⟨req.Name, req.Responses⟩ : SubmitResponseRequest) = req from rfl] at hok
      rw [hok]
      intro e n
      rcases hp with ⟨_, hp⟩ | ⟨hnone, hp⟩
      · rw [hp]; exact ih e n
      · rw [hp, List.filter_append]
        by_cases hmatch : eventID = e ∧ req.Name = n
        · obtain ⟨rfl, rfl⟩ := hmatch
          rw [selectRespondentID_none db eventID req.Name hnone]
          simp
        · have hrow : ([(⟨rid, eventID, req.Name, tc.format now⟩ : RespondentRow)].filter
              (fun p => p.event_id == e && p.name == n)) = [] := by
            rw [List.filter_eq_nil_iff]
            intro p hp hcon
            simp only [List.mem_singleton] at hp
            subst hp
            simp only [Bool.and_eq_true, beq_iff_eq] at hcon
            exact hmatch hcon
          rw [hrow, List.append_nil]
          exact ih e n
  | @finalizeEvent db eventID eventDateID _ ih =>
    rcases FinalizeEvent_cases db eventID eventDateID with hfail | ⟨_, hok⟩
    · rw [hfail]; exact ih
    · rw [hok]; exact ih

theorem Reachable.oneResponsePerDate {tc : TimeCodec} {db : Store} (h : Reachable tc db) :
    OneResponsePerDate db := by
  induction h with
  | empty => exact List.Pairwise.nil
  | @createEvent db req eventID now returnedAt _ ih =>
    rcases CreateEvent_cases tc db req eventID now returnedAt with
      ⟨err, herr⟩ | ⟨new, seq, hok, _, _⟩
    · rw [herr]; exact ih
    · rw [hok]; exact ih
  | @submitResponse db eventID req now _ ih =>
    rcases SubmitResponse_cases tc db eventID req now with hsame | hR
    · rw [hsame]; exact ih
    · obtain ⟨db', rid, new, hok, _, _, _, hresp, hnew⟩ :=
        SubmitResponse_ok tc db eventID req.Name req.Responses now hR
      rw [show (⟨req.Name, req.Responses⟩ : SubmitResponseRequest) = req from rfl] at hok
      rw [hok]
      unfold OneResponsePerDate
      rw [hresp, List.pairwise_append]
      refine ⟨List.Pairwise.filter _ ih, ?_, ?_⟩
      · have hmapped : (new.map ResponseRow.triple).Pairwise
            (fun a b => ¬(a.1 = b.1 ∧ a.2.1 = b.2.1)) := by
          rw [hnew, List.pairwise_map]
          exact hR.imp (fun hne hcon => hne hcon.2)
        rw [List.pairwise_map] at hmapped
        exact hmapped
      · intro a ha b hb hcon
        have hbr : b.respondent_id = rid := by
          have : b.triple ∈ new.map ResponseRow.triple := List.mem_map_of_mem _ hb
          rw [hnew, List.mem_map] at this
          obtain ⟨q, _, hq⟩ := this
          simp only [ResponseRow.triple, Prod.mk.injEq] at hq
          exact hq.1.symm
        have har := (List.mem_filter.mp ha).2
        simp only [bne_iff_ne, ne_eq] at har
        exact har (hcon.1.trans hbr)
  | @finalizeEvent db eventID eventDateID _ ih =>
    rcases FinalizeEvent_cases db eventID eventDateID with hfail | ⟨_, hok⟩
    · rw [hfail]; exact ih
    · rw [hok]; exact ih

theorem Reachable.readable {tc : TimeCodec} {db : Store} (hrt : tc.RoundTrips)
    (h : Reachable tc db) (eventID : String) : Readable tc db eventID := by
  suffices hall : (∀ e ∈ db.events, (parseCreatedAt tc e.created_at).isSome = true) ∧
      (∀ p ∈ db.respondents, (parseCreatedAt tc p.created_at).isSome = true) from
    ⟨fun e he _ => hall.1 e he, fun p hp _ => hall.2 p hp⟩
  clear eventID
  induction h with
  | empty => exact ⟨fun e he => (by cases he), fun p hp => (by cases hp)⟩
  | @createEvent db req eventID now returnedAt _ ih =>
    rcases CreateEvent_cases tc db req eventID now returnedAt with
      ⟨err, herr⟩ | ⟨new, seq, hok, _, _⟩
    · rw [herr]; exact ih
    · rw [hok]
      refine ⟨?_, ih.2⟩
      intro e he
      simp only [List.mem_append, List.mem_singleton] at he
      rcases he with he | rfl
      · exact ih.1 e he
      · exact hrt now
  | @submitResponse db eventID req now _ ih =>
    rcases SubmitResponse_cases tc db eventID req now with hsame | hR
    · rw [hsame]; exact ih
    · obtain ⟨db', rid, new, hok, he, _, hp, _, _⟩ :=
        SubmitResponse_ok tc db eventID req.Name req.Responses now hR
      rw [show (⟨req.Name, req.Responses⟩ : SubmitResponseRequest) = req from rfl] at hok
      rw [hok]
      refine ⟨by rw [he]; exact ih.1, ?_⟩
      rcases hp with ⟨_, hp⟩ | ⟨_, hp⟩
      · rw [hp]; exact ih.2
      · rw [hp]
        intro p hpm
        simp only [List.mem_append, List.mem_singleton] at hpm
        rcases hpm with hpm | rfl
        · exact ih.2 p hpm
        · exact hrt now
  | @finalizeEvent db eventID eventDateID _ ih =>
    rcases FinalizeEvent_cases db eventID eventDateID with hfail | ⟨_, hok⟩
    · rw [hfail]; exact ih
    · rw [hok]
      refine ⟨?_, ih.2⟩
      intro e he
      simp only [updateFinalized, List.mem_map] at he
      obtain ⟨e0, he0, rfl⟩ := he
      split <;> exact ih.1 e0 he0

/-! ## responses and the event of their respondent -/

/-- `SubmitResponse` accepts a date option of another event: after "Dave"
answers for event "e1" with date option 3 of event "e2", a reachable database
holds a response whose respondent is of "e1" and whose date option is of "e2". -/
theorem SubmitResponse_crosses_events :
    Reachable markCodec crossStore ∧
      (SubmitResponse markCodec twoEvents "e1" ⟨"Dave", [⟨3, true⟩]⟩ 8).1 = none ∧
      (∃ r ∈ crossStore.responses, ∃ p ∈ crossStore.respondents,
        ∃ d ∈ crossStore.event_dates,
          p.id = r.respondent_id ∧ d.id = r.event_date_id ∧
            p.event_id = "e1" ∧ d.event_id = "e2") ∧
      ¬ ResponsesWithinEvent crossStore :=
  ⟨Reachable.submitResponse "e1" ⟨"Dave", [⟨3, true⟩]⟩ 8
      (Reachable.createEvent ⟨"Retro", [⟨"2024-02-01", "10:00", "11:00"⟩]⟩ "e2" 5 6
        (Reachable.submitResponse "e1" ⟨"Bob", [⟨1, true⟩]⟩ 4
          (Reachable.submitResponse "e1" ⟨"Alice", [⟨1, true⟩, ⟨2, false⟩]⟩ 3
            (Reachable.createEvent teamSync "e1" 1 2 Reachable.empty)))),
    by decide, by decide, by unfold ResponsesWithinEvent; decide⟩

/-- The effect of a submission without a repeated date option, with the id of
a respondent row that it inserts. -/
theorem SubmitResponse_effect (tc : TimeCodec) (db : Store) (eventID name : String)
    (R : List ResponseRequest) (now : Time) (hR : DistinctDates R) :
    ∃ db' rid new,
      SubmitResponse tc db eventID ⟨name, R⟩ now = (none, db') ∧
      db'.event_dates = db.event_dates ∧
      ((selectRespondentID db eventID name = some rid ∧ db'.respondents = db.respondents) ∨
        ((∀ p ∈ db.respondents, p.id < rid) ∧
          db'.respondents = db.respondents ++ [⟨rid, eventID, name, tc.format now⟩])) ∧
      db'.responses = db.responses.filter (fun r => r.respondent_id != rid) ++ new ∧
      new.map ResponseRow.triple = R.map (fun q => (rid, q.EventDateID, q.Available)) := by
  cases hsel : selectRespondentID db eventID name with
  | some rid =>
    obtain ⟨v', new, hok, hresp, hnew, _, hd, hp⟩ :=
      insertResponses_ok rid R (deleteResponses db rid) hR (by
        intro row hrow hrid
        simp [deleteResponses, hrid] at hrow)
    refine ⟨v', rid, new, ?_, hd, Or.inl ⟨rfl, hp⟩, hresp, hnew⟩
    simp [SubmitResponse, resolveRespondent, Begin, hsel, hok, Tx.Commit]
  | none =>
    obtain ⟨v', new, hok, hresp, hnew, _, hd, hp⟩ :=
      insertResponses_ok (nextID db.seq_respondents (db.respondents.map (·.id))) R
        (deleteResponses
          { db with
            respondents := db.respondents ++
              [⟨nextID db.seq_respondents (db.respondents.map (·.id)), eventID, name,
                tc.format now⟩],
            seq_respondents := nextID db.seq_respondents (db.respondents.map (·.id)) }
          (nextID db.seq_respondents (db.respondents.map (·.id)))) hR (by
        intro row hrow hrid
        simp [deleteResponses, hrid] at hrow)
    refine ⟨v', nextID db.seq_respondents (db.respondents.map (fun p : RespondentRow => p.id)),
      new, ?_, hd, Or.inr ⟨?_, ?_⟩, ?_, hnew⟩
    rotate_left
    · intro p hp
      exact lt_nextID_of_mem _ _ _ (List.mem_map_of_mem _ hp)
    · exact hp
    · exact hresp
    simp [SubmitResponse, resolveRespondent, Begin, hsel, insertRespondent, hok, Tx.Commit]

theorem ReachableOwned.reachable {tc : TimeCodec} {db : Store} (h : ReachableOwned tc db) :
    Reachable tc db := by
  induction h with
  | empty => exact Reachable.empty
  | createEvent req eventID now returnedAt _ ih =>
    exact Reachable.createEvent req eventID now returnedAt ih
  | submitResponse eventID req now _ _ ih => exact Reachable.submitResponse eventID req now ih
  | finalizeEvent eventID eventDateID _ ih => exact Reachable.finalizeEvent eventID eventDateID ih

theorem Reachable.respondentIdsNodup {tc : TimeCodec} {db : Store} (h : Reachable tc db) :
    (db.respondents.map (·.id)).Nodup := by
  induction h with
  | empty => exact List.nodup_nil
  | @createEvent db req eventID now returnedAt _ ih =>
    rcases CreateEvent_cases tc db req eventID now returnedAt with
      ⟨err, herr⟩ | ⟨new, seq, hok, _, _⟩
    · rw [herr]; exact ih
    · rw [hok]; exact ih
  | @submitResponse db eventID req now _ ih =>
    rcases SubmitResponse_cases tc db eventID req now with hsame | hR
    · rw [hsame]; exact ih
    · obtain ⟨db', rid, new, hok, _, hp, _, _⟩ :=
        SubmitResponse_effect tc db eventID req.Name req.Responses now hR
      rw [show (⟨req.Name, req.Responses⟩ : SubmitResponseRequest) = req from rfl] at hok
      rw [hok]
      rcases hp with ⟨_, hp⟩ | ⟨hlt, hp⟩
      · rw [hp]; exact ih
      · rw [hp, List.map_append, List.nodup_append]
        refine ⟨ih, List.nodup_singleton _, ?_⟩
        intro i hi hi'
        simp only [List.map_cons, List.map_nil, List.mem_singleton] at hi'
        rw [List.mem_map] at hi
        obtain ⟨p, hpm, rfl⟩ := hi
        exact absurd hi' (ne_of_lt (hlt p hpm))
  | @finalizeEvent db eventID eventDateID _ ih =>
    rcases FinalizeEvent_cases db eventID eventDateID with hfail | ⟨_, hok⟩
    · rw [hfail]; exact ih
    · rw [hok]; exact ih

theorem Reachable.dateIdsNodup {tc : TimeCodec} {db : Store} (h : Reachable tc db) :
    (db.event_dates.map (·.id)).Nodup := by
  induction h with
  | empty => exact List.nodup_nil
  | @createEvent db req eventID now returnedAt _ ih =>
    by_cases htaken : ∃ e ∈ db.events, e.id = eventID
    · rw [CreateEvent_taken tc db req eventID now returnedAt htaken]; exact ih
    · obtain ⟨new, seq, hok, _, hpair, hlt⟩ := CreateEvent_fresh tc db req eventID now
        returnedAt (fun e he hid => htaken ⟨e, he, hid⟩)
      rw [hok]
      have hmap : (new.map EventDate.toRow).map (fun r => r.id) = new.map (fun d => d.ID) := by
        rw [List.map_map]; rfl
      rw [List.map_append, hmap, List.nodup_append]
      refine ⟨ih, hpair.imp (fun hab => ne_of_lt hab), ?_⟩
      intro i hi hi'
      rw [List.mem_map] at hi hi'
      obtain ⟨row, hrow, rfl⟩ := hi
      obtain ⟨d, hd, hdi⟩ := hi'
      exact absurd hdi.symm (ne_of_lt (hlt d hd row hrow))
  | @submitResponse db eventID req now _ ih =>
    rw [(SubmitResponse_frame tc db eventID req now).2]; exact ih
  | @finalizeEvent db eventID eventDateID _ ih =>
    rcases FinalizeEvent_cases db eventID eventDateID with hfail | ⟨_, hok⟩
    · rw [hfail]; exact ih
    · rw [hok]; exact ih

theorem eq_of_nodup_map_id {α : Type} (f : α → Int) (l : List α) (h : (l.map f).Nodup)
    (a b : α) (ha : a ∈ l) (hb : b ∈ l) (hab : f a = f b) : a = b :=
  List.inj_on_of_nodup_map h ha hb hab

/-- C11, amended. In every database reachable from the empty one by `CreateEvent`,
`FinalizeEvent` and `SubmitResponse` calls whose response lists name only date
options of the event they are submitted to, every response row has a
respondent row and a date option row, and the date option belongs to the event
of the respondent.  `SubmitResponse` does not check the condition itself. -/
theorem responses_within_event (tc : TimeCodec) (db : Store) (h : ReachableOwned tc db) :
    ResponsesWithinEvent db := by
  induction h with
  | empty => intro r hr; cases hr
  | @createEvent db req eventID now returnedAt _ ih =>
    by_cases htaken : ∃ e ∈ db.events, e.id = eventID
    · rw [CreateEvent_taken tc db req eventID now returnedAt htaken]; exact ih
    · obtain ⟨new, seq, hok, _, _, hlt⟩ := CreateEvent_fresh tc db req eventID now
        returnedAt (fun e he hid => htaken ⟨e, he, hid⟩)
      rw [hok]
      intro r hr
      obtain ⟨hp, ⟨d1, hd1, hd1id⟩, hall⟩ := ih r hr
      refine ⟨hp, ⟨d1, List.mem_append_left _ hd1, hd1id⟩, ?_⟩
      intro p hpm d hd hpid hdid
      rcases List.mem_append.mp hd with hd | hd
      · exact hall p hpm d hd hpid hdid
      · rw [List.mem_map] at hd
        obtain ⟨d0, hd0, rfl⟩ := hd
        have hlt' := hlt d0 hd0 d1 hd1
        have : d0.ID = d1.id := hdid.trans hd1id.symm
        omega
  | @submitResponse db eventID req now hown hprev ih =>
    rcases SubmitResponse_cases tc db eventID req now with hsame | hR
    · rw [hsame]; exact ih
    · obtain ⟨db', rid, new, hok, hdates, hp, hresp, hnew⟩ :=
        SubmitResponse_effect tc db eventID req.Name req.Responses now hR
      rw [show (⟨req.Name, req.Responses⟩ : SubmitResponseRequest) = req from rfl] at hok
      rw [hok]
      have hpids := hprev.reachable.respondentIdsNodup
      have hdids := hprev.reachable.dateIdsNodup
      have hsub : ∀ p ∈ db.respondents, p ∈ db'.respondents := by
        intro p hpm
        rcases hp with ⟨_, hp⟩ | ⟨_, hp⟩
        · rw [hp]; exact hpm
        · rw [hp]; exact List.mem_append_left _ hpm
      have hmine : (∃ p ∈ db'.respondents, p.id = rid) ∧
          ∀ p ∈ db'.respondents, p.id = rid → p.event_id = eventID := by
        rcases hp with ⟨hsel, hp⟩ | ⟨hlt, hp⟩
        · obtain ⟨row, hrow, hre, _, hrid⟩ := selectRespondentID_some db eventID req.Name rid hsel
          rw [hp]
          refine ⟨⟨row, hrow, hrid⟩, ?_⟩
          intro p hpm hpid
          rw [eq_of_nodup_map_id (fun p : RespondentRow => p.id) db.respondents hpids p row hpm
            hrow (hpid.trans hrid.symm)]
          exact hre
        · rw [hp]
          refine ⟨⟨⟨rid, eventID, req.Name, tc.format now⟩, by simp, rfl⟩, ?_⟩
          intro p hpm hpid
          rcases List.mem_append.mp hpm with hpm | hpm
          · exact absurd hpid (ne_of_lt (hlt p hpm))
          · rw [List.mem_singleton] at hpm
            rw [hpm]
      intro r hr
      rw [hresp] at hr
      rcases List.mem_append.mp hr with hr | hr
      · obtain ⟨hrold, hne⟩ := List.mem_filter.mp hr
        simp only [bne_iff_ne, ne_eq] at hne
        obtain ⟨⟨p0, hp0, hp0id⟩, hd, hall⟩ := ih r hrold
        refine ⟨⟨p0, hsub p0 hp0, hp0id⟩, by rw [hdates]; exact hd, ?_⟩
        intro p hpm d hdm hpid hdid
        rw [hdates] at hdm
        rcases hp with ⟨_, hp⟩ | ⟨_, hp⟩
        · rw [hp] at hpm
          exact hall p hpm d hdm hpid hdid
        · rw [hp] at hpm
          rcases List.mem_append.mp hpm with hpm | hpm
          · exact hall p hpm d hdm hpid hdid
          · rw [List.mem_singleton] at hpm
            rw [hpm] at hpid
            exact absurd hpid.symm hne
      · have htriple : r.triple ∈ new.map ResponseRow.triple := List.mem_map_of_mem _ hr
        rw [hnew, List.mem_map] at htriple
        obtain ⟨q, hq, hqe⟩ := htriple
        simp only [ResponseRow.triple, Prod.mk.injEq] at hqe
        obtain ⟨hrid, hrdate, _⟩ := hqe
        obtain ⟨d0, hd0, hd0id, hd0e⟩ := hown q hq
        refine ⟨?_, ⟨d0, by rw [hdates]; exact hd0, hd0id.trans hrdate⟩, ?_⟩
        · obtain ⟨p, hpm, hpid⟩ := hmine.1
          exact ⟨p, hpm, hpid.trans hrid⟩
        · intro p hpm d hdm hpid hdid
          rw [hdates] at hdm
          rw [eq_of_nodup_map_id (fun d : EventDateRow => d.id) db.event_dates hdids d d0 hdm hd0
            (hdid.trans (hrdate.symm.trans hd0id.symm)), hd0e]
          exact (hmine.2 p hpm (hpid.trans hrid.symm)).symm
  | @finalizeEvent db eventID eventDateID _ ih =>
    rcases FinalizeEvent_cases db eventID eventDateID with hfail | ⟨_, hok⟩
    · rw [hfail]; exact ih
    · rw [hok]; exact ih

theorem responses_within_event_witness :
    ReachableOwned markCodec ownedStore ∧ ResponsesWithinEvent ownedStore ∧
      ownedStore.responses.length = 4 :=
  have hreach : ReachableOwned markCodec ownedStore :=
    ReachableOwned.submitResponse "e2" ⟨"Dave", [⟨3, true⟩]⟩ 8 (by decide)
      (ReachableOwned.createEvent ⟨"Retro", [⟨"2024-02-01", "10:00", "11:00"⟩]⟩ "e2" 5 6
        (ReachableOwned.submitResponse "e1" ⟨"Bob", [⟨1, true⟩]⟩ 4 (by decide)
          (ReachableOwned.submitResponse "e1" ⟨"Alice", [⟨1, true⟩, ⟨2, false⟩]⟩ 3 (by decide)
            (ReachableOwned.createEvent teamSync "e1" 1 2 ReachableOwned.empty))))
  ⟨hreach, responses_within_event markCodec ownedStore hreach, by decide⟩

end FinnEnDato
